import Mathlib

/-!
# Event processor: store, validator, worker

A shallow embedding of `internal/models/event.go`, `internal/models/store.go`,
`app/processor/worker.go` and the POST handler of `app/api/server.go`.

Modelling conventions
* A Go `*Event` argument is an `Option Event` (`none` is the nil pointer); the
  events kept in the map and in the channel are never nil, because `Add` returns
  before touching either when it is handed nil.
* The map and the channel hold pointers.  No code of the repository writes to an
  event after handing it to `Add`, so a stored pointer is the value it points
  to.
* A Go string is a Lean `String`: the payloads that reach the store were decoded
  from JSON, which yields valid UTF-8.
* `sync.RWMutex`: every method holds the lock for its whole body, so a method
  call is one atomic state transition and a concurrent execution is a sequence
  of such calls.
* `map[string]*Event` is an association list with one entry per key; a fresh
  key is appended.  Go leaves the iteration order of a map unspecified, so the
  statements about `GetAll` hold for every reordering of the list.
* `chan *Event` carries its buffer, its capacity, the closed flag, the number of
  receivers parked on it and the log of values handed to receivers so far.
* A Go panic is an explicit outcome.
* The wall clock is a parameter of the functions that read it.
* The loop of `Worker.Start` runs one turn per entry of a schedule that gives,
  for that turn, the calls other goroutines made on the store, whether the
  context is cancelled, the case the `select` takes when both are ready, and,
  for a worker blocked in the `select`, the value a sender handed to it.  A
  blocked worker resumes when a sender, `Close` or the cancellation wakes it.
-/

namespace EventProcessor

/-! ## internal/models/event.go -/

/-- The three error values of package `models`. -/
inductive Error where
  | ErrMissingID
  | ErrEventNotFound
  | ErrDuplicateEventID
  deriving DecidableEq, Repr

set_option linter.dupNamespace false in
/-- The method `Error()` of the string-based error type. -/
def Error.Error : Error → String
  | .ErrMissingID => "missing event ID"
  | .ErrEventNotFound => "event not found"
  | .ErrDuplicateEventID => "duplicate event ID"

/-- An incoming event.  `Timestamp` is an `int64`; no arithmetic is done on it. -/
structure Event where
  ID : String
  Timestamp : Int
  Payload : String
  deriving DecidableEq, Repr

/-- A processed event.  `ProcessedAt` is a `time.Time`, kept as the instant read
from the clock. -/
structure TransformedEvent where
  ID : String
  OriginalTime : Int
  ProcessedAt : Int
  Payload : String
  ProcessorID : String
  deriving DecidableEq, Repr

/-- `ValidateEvent(e)`: the event behind the pointer after the call, and the
returned error (`none` is Go's nil error).  `now` is `time.Now().Unix()`. -/
def ValidateEvent (now : Int) (e : Event) : Event × Option Error :=
  if e.ID = "" then
    (e, some .ErrMissingID)
  else if e.Timestamp = 0 then
    ({ e with Timestamp := now }, none)
  else
    (e, none)

/-! ## Go maps and channels -/

/-- The entries of a `map[string]*Event`. -/
abbrev EventMap := List (String × Event)

/-- The lookup `m[k]` with its `exists` flag. -/
def EventMap.lookup : EventMap → String → Option Event
  | [], _ => none
  | (k', v) :: rest, k => if k' = k then some v else EventMap.lookup rest k

/-- The assignment `m[k] = v`: overwrite the entry of `k`, or add one. -/
def EventMap.set : EventMap → String → Event → EventMap
  | [], k, v => [(k, v)]
  | (k', v') :: rest, k, v =>
    if k' = k then (k, v) :: rest else (k', v') :: EventMap.set rest k v

/-- One entry per key, as in every Go map. -/
def EventMap.distinctKeys (m : EventMap) : Prop :=
  (m.map Prod.fst).Nodup

/-- The runtime state of a `chan *Event`. -/
structure Chan where
  /-- buffered values, oldest first -/
  buf : List Event
  /-- the capacity given to `make` -/
  cap : Nat
  /-- set by `close` -/
  closed : Bool
  /-- receivers parked in a receive on this channel -/
  recvq : Nat
  /-- every value a receiver has got from the channel, oldest first -/
  received : List Event
  deriving DecidableEq, Repr

/-- The result of a `select` with one send case and a `default`. -/
inductive SendOutcome where
  /-- the send case ran -/
  | sent (ch : Chan)
  /-- the send could not proceed: `default` ran -/
  | notReady
  /-- send on a closed channel -/
  | panicked
  deriving DecidableEq, Repr

/-- The non-blocking send `select { case ch <- e: default: }`.  A send on a
closed channel panics; otherwise it goes to a parked receiver if there is one,
else into the buffer if there is room, else the `default` case runs. -/
def Chan.trySend (ch : Chan) (e : Event) : SendOutcome :=
  if ch.closed then .panicked
  else if 0 < ch.recvq then
    .sent { ch with recvq := ch.recvq - 1, received := ch.received ++ [e] }
  else if ch.buf.length < ch.cap then
    .sent { ch with buf := ch.buf ++ [e] }
  else .notReady

/-- What a receiver arriving at the channel gets. -/
inductive RecvOutcome where
  /-- a buffered value, `ok = true` -/
  | value (e : Event)
  /-- the channel is closed and drained, `ok = false` -/
  | closed
  /-- nothing to receive yet: the receiver parks -/
  | parked
  deriving DecidableEq, Repr

/-- The receive `<-ch` of a consumer arriving at the channel. -/
def Chan.recv (ch : Chan) : Chan × RecvOutcome :=
  match ch.buf with
  | e :: rest => ({ ch with buf := rest, received := ch.received ++ [e] }, .value e)
  | [] =>
    if ch.closed then (ch, .closed)
    else ({ ch with recvq := ch.recvq + 1 }, .parked)

/-- The runtime keeps no receiver parked on a channel that has something to
give, and never buffers more than the capacity. -/
def Chan.wellFormed (ch : Chan) : Prop :=
  ch.buf.length ≤ ch.cap ∧ (0 < ch.recvq → ch.buf = [] ∧ ch.closed = false)

/-! ## internal/models/store.go -/

/-- The event store: the map and the hand-off channel. -/
structure EventStore where
  events : EventMap
  eventCh : Chan
  deriving DecidableEq, Repr

/-- `NewEventStore(bufferSize)`, for the sizes `make` accepts. -/
def NewEventStore (bufferSize : Nat) : EventStore :=
  { events := [],
    eventCh := { buf := [], cap := bufferSize, closed := false, recvq := 0, received := [] } }

/-- How a call of `Add` ends. -/
inductive AddResult where
  /-- `Add` returned this error (`none` is nil) -/
  | returned (err : Option Error)
  /-- `Add` panicked in the send -/
  | panicked
  deriving DecidableEq, Repr

/-- `EventStore.Add(event)`: the store after the call and how the call ended. -/
def EventStore.Add (s : EventStore) (event : Option Event) : EventStore × AddResult :=
  match event with
  | none => (s, .returned (some .ErrMissingID))
  | some e =>
    if (s.events.lookup e.ID).isSome then
      (s, .returned (some .ErrDuplicateEventID))
    else
      let s1 : EventStore := { s with events := s.events.set e.ID e }
      match s1.eventCh.trySend e with
      | .sent ch => ({ s1 with eventCh := ch }, .returned none)
      | .notReady => (s1, .returned none)
      | .panicked => (s1, .panicked)

/-- `EventStore.Get(id)`. -/
def EventStore.Get (s : EventStore) (id : String) : Except Error Event :=
  match s.events.lookup id with
  | none => .error .ErrEventNotFound
  | some event => .ok event

/-- `EventStore.GetAll()`, in the order of the entry list. -/
def EventStore.GetAll (s : EventStore) : List Event :=
  s.events.map Prod.snd

/-- `EventStore.EventChannel()`. -/
def EventStore.EventChannel (s : EventStore) : Chan :=
  s.eventCh

/-- `EventStore.Close()`: `close` wakes every parked receiver; closing a closed
channel panics (`none`). -/
def EventStore.Close (s : EventStore) : Option EventStore :=
  if s.eventCh.closed then none
  else some { s with eventCh := { s.eventCh with closed := true, recvq := 0 } }

/-- One call on a shared store: the methods that change it.  `receive` is a
consumer arriving at `EventChannel()`; `leave` is a parked consumer giving up
the wait (its context was cancelled). -/
inductive Op where
  | add (event : Option Event)
  | close
  | receive
  | leave
  deriving DecidableEq, Repr

/-- The store after one call.  A panicking call leaves the store as the panic
found it. -/
def EventStore.step (s : EventStore) : Op → EventStore
  | .add event => (s.Add event).1
  | .close => (s.Close).getD s
  | .receive => { s with eventCh := s.eventCh.recv.1 }
  | .leave => { s with eventCh := { s.eventCh with recvq := s.eventCh.recvq - 1 } }

/-- The store after a sequence of calls. -/
def EventStore.run (s : EventStore) : List Op → EventStore
  | [] => s
  | op :: rest => EventStore.run (s.step op) rest

/-- The events whose `Add` returned nil during a sequence of calls, in call
order. -/
def EventStore.successfulAdds (s : EventStore) : List Op → List Event
  | [] => []
  | .add (some e) :: rest =>
    if (s.Add (some e)).2 = .returned none then
      e :: EventStore.successfulAdds (s.step (.add (some e))) rest
    else EventStore.successfulAdds (s.step (.add (some e))) rest
  | op :: rest => EventStore.successfulAdds (s.step op) rest

/-- A sequence of `Add` calls: the store at the end and the result of each
call, in call order. -/
def EventStore.runAdds (s : EventStore) : List (Option Event) → EventStore × List AddResult
  | [] => (s, [])
  | event :: rest =>
    let r := s.Add event
    let rr := EventStore.runAdds r.1 rest
    (rr.1, r.2 :: rr.2)

/-- The first non-nil event with the given ID in a sequence of `Add` arguments. -/
def firstWithID (calls : List (Option Event)) (id : String) : Option Event :=
  calls.reduceOption.find? (fun e => decide (e.ID = id))

/-! ## app/processor/worker.go -/

/-- `unicode.ToUpper(r)`: the ASCII letters are mapped by subtraction, every
other rune through the case table of package `unicode`, which is a parameter. -/
def unicodeToUpper (caseTable : Char → Char) (r : Char) : Char :=
  if r.toNat ≤ 0x7F then
    if 'a'.toNat ≤ r.toNat ∧ r.toNat ≤ 'z'.toNat then Char.ofNat (r.toNat - ('a'.toNat - 'A'.toNat))
    else r
  else caseTable r

/-- `strings.ToUpper(s)` on a valid UTF-8 string: every rune is mapped by
`unicode.ToUpper` (the ASCII fast path of the library computes the same). -/
def ToUpper (caseTable : Char → Char) (s : String) : String :=
  String.mk (s.data.map (unicodeToUpper caseTable))

/-- A `uuid.UUID`: sixteen bytes. -/
abbrev UUID := Fin 16 → Fin 256

/-- One lower-case hexadecimal digit. -/
def hexDigit (n : Nat) : Char :=
  if n < 10 then Char.ofNat ('0'.toNat + n) else Char.ofNat ('a'.toNat + (n - 10))

/-- The two hexadecimal digits of the bytes `i, i+1, ..` of a UUID. -/
def UUID.hex (u : UUID) (idx : List (Fin 16)) : List Char :=
  idx.flatMap (fun i => [hexDigit ((u i).val / 16), hexDigit ((u i).val % 16)])

/-- `UUID.String()`: the form `xxxxxxxx-xxxx-xxxx-xxxx-xxxxxxxxxxxx`. -/
def UUID.String (u : UUID) : String :=
  String.mk (u.hex [0, 1, 2, 3] ++ '-' :: u.hex [4, 5] ++ '-' :: u.hex [6, 7] ++
    '-' :: u.hex [8, 9] ++ '-' :: u.hex [10, 11, 12, 13, 14, 15])

/-- The slice `s[:n]` of a string of one-byte characters; `none` is the panic
for a bound past the end. -/
def sliceTo (s : String) (n : Nat) : Option String :=
  if n ≤ s.length then some (String.mk (s.data.take n)) else none

/-- A background worker.  The store it reads from and its logger are passed to
its methods. -/
structure Worker where
  id : String
  deriving DecidableEq, Repr

/-- `NewWorker(eventStore, logger)`, with the value of `uuid.New()` as a
parameter; `none` would be the panic of the slice `[:8]`. -/
def NewWorker (u : UUID) : Option Worker :=
  (sliceTo u.String 8).map (fun id => { id := id })

/-- `Worker.publishEvent(event)`: the line given to the logger. -/
def Worker.publishEvent (w : Worker) (event : TransformedEvent) : String :=
  "[PUBLISHED] Worker " ++ w.id ++ " processed event " ++ event.ID ++ ": " ++ event.Payload

/-- `Worker.processEvent(event)`: the transformed event it builds and the line
`publishEvent` logs for it.  `now` is `time.Now()`. -/
def Worker.processEvent (caseTable : Char → Char) (w : Worker) (now : Int) (event : Event) :
    TransformedEvent × String :=
  let transformedEvent : TransformedEvent :=
    { ID := event.ID,
      OriginalTime := event.Timestamp,
      ProcessedAt := now,
      Payload := ToUpper caseTable event.Payload,
      ProcessorID := w.id }
  (transformedEvent, w.publishEvent transformedEvent)

/-- Whether `Add(e)` on `s` hands `e` straight to a receiver parked on the
channel: the log of delivered values grows by `e` during the call. -/
def EventStore.handsOff (s : EventStore) (e : Event) : Bool :=
  decide ((s.Add (some e)).1.eventCh.received = s.eventCh.received ++ [e])

/-- The events that a sequence of calls handed straight to parked receivers,
oldest first. -/
def EventStore.handoffs (s : EventStore) : List Op → List Event
  | [] => []
  | .add (some e) :: rest =>
    if s.handsOff e then e :: EventStore.handoffs (s.step (.add (some e))) rest
    else EventStore.handoffs (s.step (.add (some e))) rest
  | op :: rest => EventStore.handoffs (s.step op) rest

/-- The first event, if any, that a sequence of calls handed off while exactly
one receiver was parked on the channel. -/
def EventStore.soleHandoff (s : EventStore) : List Op → Option Event
  | [] => none
  | .add (some e) :: rest =>
    if s.handsOff e && decide (s.eventCh.recvq = 1) then some e
    else EventStore.soleHandoff (s.step (.add (some e))) rest
  | op :: rest => EventStore.soleHandoff (s.step op) rest

/-- The value, if any, that a sender hands to a given receiver parked on `s`
while the calls `ops` are made.  A sender wakes the receiver at the head of the
wait queue.  The channel state counts the parked receivers without ordering
them, so when several are parked `handed` names the value that went to this
one; it counts only if one of `ops` did hand it off.  A value handed off while
this receiver is the only one parked is its own in any case. -/
def EventStore.wakes (s : EventStore) (ops : List Op) (handed : Option Event) :
    Option Event :=
  match handed.filter (fun e => decide (e ∈ s.handoffs ops)) with
  | some e => some e
  | none => s.soleHandoff ops

/-- What the rest of the program contributes to one turn of a worker's loop. -/
structure Tick where
  /-- calls other goroutines made on the store since the previous turn -/
  others : List Op
  /-- `ctx.Done()` is closed when the `select` runs, or wakes up -/
  ctxDone : Bool
  /-- the case the `select` takes when both are ready: `true` is `ctx.Done()` -/
  pickCtx : Bool
  /-- the clock read by `processEvent` -/
  now : Int
  /-- for a worker blocked in the `select` among several parked receivers: the
  value a sender handed to this one (see `EventStore.wakes`) -/
  handed : Option Event
  deriving DecidableEq, Repr

/-- Where a run of `Start` stands. -/
inductive StartExit where
  /-- returned from the `ctx.Done()` case -/
  | cancelled
  /-- returned from the `!ok` branch: the feed is closed and drained -/
  | feedClosed
  /-- neither case of the `select` is ready: the goroutine is blocked in it,
  registered as a receiver on the channel, until another goroutine sends,
  closes or cancels -/
  | parked
  /-- in the loop, between two turns: about to run the `select` -/
  | running
  deriving DecidableEq, Repr

/-- A run of `Start` so far: where it stands, the store, the events it received
and gave to `processEvent`, the transformed events given to `publishEvent`, and
the lines given to the logger, all oldest first. -/
structure StartResult where
  exit : StartExit
  store : EventStore
  handled : List Event
  published : List TransformedEvent
  log : List String
  deriving DecidableEq, Repr

/-- One turn of the `for { select { ... } }` of `Worker.Start`.

A worker about to run the `select` takes the `ctx.Done()` case, or receives: a
buffered value goes to `processEvent`, a closed and drained channel makes it
return, and with neither case ready it blocks, registered on the channel.

A blocked worker is woken by a sender that hands it a value, which goes to
`processEvent`, by `Close`, or by the cancellation, and stays blocked
otherwise.  A worker that has returned does nothing more. -/
def Worker.turn (caseTable : Char → Char) (w : Worker) (r : StartResult) (t : Tick) :
    StartResult :=
  match r.exit with
  | .cancelled => r
  | .feedClosed => r
  | .running =>
    let s1 := r.store.run t.others
    let eventCh := s1.EventChannel
    let recvReady : Bool := !eventCh.buf.isEmpty || eventCh.closed
    if t.ctxDone && (t.pickCtx || !recvReady) then
      { r with exit := .cancelled, store := s1,
               log := r.log ++ ["Worker " ++ w.id ++ " shutting down..."] }
    else
      match eventCh.recv with
      | (ch, .value event) =>
        let p := w.processEvent caseTable t.now event
        { exit := .running, store := { s1 with eventCh := ch },
          handled := r.handled ++ [event], published := r.published ++ [p.1],
          log := r.log ++ [p.2] }
      | (_, .closed) =>
        { r with exit := .feedClosed, store := s1,
                 log := r.log ++ ["Event channel closed, worker " ++ w.id ++ " shutting down"] }
      | (ch, .parked) =>
        { r with exit := .parked, store := { s1 with eventCh := ch } }
  | .parked =>
    let s1 := r.store.run t.others
    match r.store.wakes t.others t.handed with
    | some event =>
      let p := w.processEvent caseTable t.now event
      { exit := .running, store := s1,
        handled := r.handled ++ [event], published := r.published ++ [p.1],
        log := r.log ++ [p.2] }
    | none =>
      if t.ctxDone && (t.pickCtx || !s1.eventCh.closed) then
        { r with exit := .cancelled, store := s1.step .leave,
                 log := r.log ++ ["Worker " ++ w.id ++ " shutting down..."] }
      else if s1.eventCh.closed then
        { r with exit := .feedClosed, store := s1,
                 log := r.log ++ ["Event channel closed, worker " ++ w.id ++ " shutting down"] }
      else
        { r with store := s1 }

/-- The loop of `Worker.Start`, continued from `r` for one turn per tick. -/
def Worker.loop (caseTable : Char → Char) (w : Worker) (r : StartResult)
    (sched : List Tick) : StartResult :=
  sched.foldl (w.turn caseTable) r

/-- `Worker.Start(ctx)` against the store `s`, under a schedule. -/
def Worker.Start (caseTable : Char → Char) (w : Worker) (s : EventStore)
    (sched : List Tick) : StartResult :=
  w.loop caseTable
    { exit := .running, store := s, handled := [], published := [],
      log := ["Starting worker " ++ w.id] } sched

/-! ## app/api/server.go -/

/-- What a handler wrote: the status code and the body text (for 201 the value
of the `id` member of the JSON object). -/
structure Response where
  status : Nat
  body : String
  deriving DecidableEq, Repr

/-- `Server.handlePostEvent`.  `decoded` is the outcome of decoding the request
body (`none`: the decoder returned an error), `now` the clock read by
`ValidateEvent`.  The result is the store afterwards and the response; `none`
in place of the response is a panic out of `Add`. -/
def handlePostEvent (s : EventStore) (now : Int) (decoded : Option Event) :
    EventStore × Option Response :=
  match decoded with
  | none => (s, some { status := 400, body := "Invalid request body" })
  | some event0 =>
    match ValidateEvent now event0 with
    | (_, some err) => (s, some { status := 400, body := err.Error })
    | (event, none) =>
      match s.Add (some event) with
      | (s1, .returned (some err)) =>
        if err = .ErrDuplicateEventID then
          (s1, some { status := 409, body := "Event with this ID already exists" })
        else
          (s1, some { status := 500, body := "Failed to store event" })
      | (s1, .returned none) => (s1, some { status := 201, body := event.ID })
      | (s1, .panicked) => (s1, none)

/-! ## Lemmas on maps, channels and `Add` -/

theorem EventMap.lookup_set_self (m : EventMap) (k : String) (v : Event) :
    (m.set k v).lookup k = some v := by
  induction m with
  | nil => simp [EventMap.set, EventMap.lookup]
  | cons p rest ih =>
    obtain ⟨k', v'⟩ := p
    by_cases h : k' = k
    · simp [EventMap.set, EventMap.lookup, h]
    · simp [EventMap.set, EventMap.lookup, h, ih]

theorem EventMap.lookup_set_ne (m : EventMap) (k k' : String) (v : Event) (h : k ≠ k') :
    (m.set k v).lookup k' = m.lookup k' := by
  induction m with
  | nil => simp [EventMap.set, EventMap.lookup, h]
  | cons p rest ih =>
    obtain ⟨k0, v0⟩ := p
    by_cases h0 : k0 = k
    · subst h0
      simp [EventMap.set, EventMap.lookup, h]
    · simp [EventMap.set, EventMap.lookup, h0, ih]

theorem EventMap.set_fresh (m : EventMap) (k : String) (v : Event)
    (h : m.lookup k = none) : m.set k v = m ++ [(k, v)] := by
  induction m with
  | nil => rfl
  | cons p rest ih =>
    obtain ⟨k0, v0⟩ := p
    by_cases h0 : k0 = k
    · simp [EventMap.lookup, h0] at h
    · simp only [EventMap.lookup, h0, if_false] at h
      simp [EventMap.set, h0, ih h]

theorem EventMap.lookup_none_iff (m : EventMap) (k : String) :
    m.lookup k = none ↔ k ∉ m.map Prod.fst := by
  induction m with
  | nil => simp [EventMap.lookup]
  | cons p rest ih =>
    obtain ⟨k0, v0⟩ := p
    by_cases h0 : k0 = k
    · simp [EventMap.lookup, h0]
    · have h1 : ¬ k = k0 := fun h => h0 h.symm
      simp only [EventMap.lookup, h0, if_false, ih]
      simp [h1]

/-- The map after `Add` of an event with a fresh ID, whatever the channel does. -/
theorem EventStore.Add_events_of_fresh (s : EventStore) (e : Event)
    (hnew : s.events.lookup e.ID = none) :
    (s.Add (some e)).1.events = s.events.set e.ID e := by
  unfold EventStore.Add
  simp only [hnew, Option.isSome_none, Bool.false_eq_true, if_false]
  cases h : Chan.trySend s.eventCh e <;> simp [h]

/-- On an open store `Add` of an event with a fresh ID returns nil. -/
theorem EventStore.Add_result_of_fresh_open (s : EventStore) (e : Event)
    (hopen : s.eventCh.closed = false) (hnew : s.events.lookup e.ID = none) :
    (s.Add (some e)).2 = .returned none := by
  unfold EventStore.Add
  simp only [hnew, Option.isSome_none, Bool.false_eq_true, if_false]
  have hne : Chan.trySend s.eventCh e ≠ .panicked := by
    unfold Chan.trySend
    simp only [hopen, Bool.false_eq_true, if_false]
    split_ifs <;> simp
  cases h : Chan.trySend s.eventCh e
  · simp [h]
  · simp [h]
  · exact absurd h hne

/-- `Add` of an ID that is already a key changes nothing. -/
theorem EventStore.Add_of_present (s : EventStore) (e : Event)
    (h : (s.events.lookup e.ID).isSome = true) :
    s.Add (some e) = (s, .returned (some .ErrDuplicateEventID)) := by
  simp [EventStore.Add, h]

/-- `Add` never closes or reopens the channel. -/
theorem EventStore.Add_closed (s : EventStore) (event : Option Event) :
    (s.Add event).1.eventCh.closed = s.eventCh.closed := by
  cases event with
  | none => rfl
  | some e =>
    unfold EventStore.Add
    by_cases hp : (s.events.lookup e.ID).isSome = true
    · simp [hp]
    · simp only [hp, if_false]
      cases h : Chan.trySend s.eventCh e with
      | sent ch =>
        simp only [h]
        unfold Chan.trySend at h
        split_ifs at h <;> simp at h <;> subst h <;> rfl
      | notReady => simp [h]
      | panicked => simp [h]

/-- A full channel with no parked receiver takes the `default` case. -/
theorem Chan.trySend_of_full (ch : Chan) (e : Event) (hopen : ch.closed = false)
    (hfull : ch.buf.length = ch.cap) (hq : ch.recvq = 0) : ch.trySend e = .notReady := by
  simp [Chan.trySend, hopen, hfull, hq]

/-- A send that goes through leaves the channel well formed. -/
theorem Chan.trySend_wellFormed (ch ch' : Chan) (e : Event) (h : ch.wellFormed)
    (hs : ch.trySend e = .sent ch') : ch'.wellFormed := by
  obtain ⟨hcap, hq⟩ := h
  unfold Chan.trySend at hs
  split_ifs at hs with hc hr hl
  · injection hs with hs
    subst hs
    exact ⟨hcap, fun _ => hq hr⟩
  · injection hs with hs
    subst hs
    refine ⟨?_, fun h0 => absurd h0 hr⟩
    simp only [List.length_append, List.length_singleton]
    omega

/-- A receive leaves the channel well formed. -/
theorem Chan.recv_wellFormed (ch : Chan) (h : ch.wellFormed) : ch.recv.1.wellFormed := by
  obtain ⟨hcap, hq⟩ := h
  unfold Chan.recv
  split
  · rename_i e rest hb
    have hr : ¬ 0 < ch.recvq := fun h0 => by
      have := (hq h0).1
      simp [hb] at this
    refine ⟨?_, fun h0 => absurd h0 hr⟩
    have : (e :: rest).length ≤ ch.cap := hb ▸ hcap
    simp only [List.length_cons] at this
    show rest.length ≤ ch.cap
    omega
  · rename_i hb
    split_ifs with hc
    · exact ⟨hcap, hq⟩
    · refine ⟨hcap, fun _ => ⟨hb, ?_⟩⟩
      show ch.closed = false
      simpa using hc

/-- The channel after `Add` is the channel before, or what the send made of it. -/
theorem EventStore.Add_eventCh (s : EventStore) (event : Option Event) :
    (s.Add event).1.eventCh = s.eventCh ∨
      ∃ e, s.eventCh.trySend e = .sent (s.Add event).1.eventCh := by
  cases event with
  | none => exact Or.inl rfl
  | some e =>
    unfold EventStore.Add
    by_cases hp : (s.events.lookup e.ID).isSome = true
    · simp [hp]
    · simp only [hp, if_false]
      cases h : Chan.trySend s.eventCh e with
      | sent ch => exact Or.inr ⟨e, by simp [h]⟩
      | notReady => exact Or.inl (by simp [h])
      | panicked => exact Or.inl (by simp [h])

/-- Every call keeps the channel well formed. -/
theorem EventStore.step_wellFormed (s : EventStore) (op : Op) (h : s.eventCh.wellFormed) :
    (s.step op).eventCh.wellFormed := by
  cases op with
  | add event =>
    rcases EventStore.Add_eventCh s event with h1 | ⟨e, h1⟩
    · simp only [EventStore.step, h1]
      exact h
    · exact Chan.trySend_wellFormed _ _ e h h1
  | close =>
    obtain ⟨hcap, hq⟩ := h
    simp only [EventStore.step, EventStore.Close]
    split_ifs with hc
    · exact ⟨hcap, hq⟩
    · exact ⟨hcap, fun h0 => absurd h0 (Nat.lt_irrefl 0)⟩
  | receive => exact Chan.recv_wellFormed _ h
  | leave =>
    obtain ⟨hcap, hq⟩ := h
    refine ⟨hcap, fun h0 => hq ?_⟩
    have : 0 < s.eventCh.recvq - 1 := h0
    omega

/-- Every store reached from a well-formed one has a well-formed channel. -/
theorem EventStore.run_wellFormed (ops : List Op) (s : EventStore)
    (h : s.eventCh.wellFormed) : (s.run ops).eventCh.wellFormed := by
  induction ops generalizing s with
  | nil => exact h
  | cons op rest ih => exact ih (s.step op) (EventStore.step_wellFormed s op h)

/-! ## Lemmas on sequences of calls -/

theorem firstWithID_cons_none (calls : List (Option Event)) (id : String) :
    firstWithID (none :: calls) id = firstWithID calls id := by
  simp [firstWithID, List.reduceOption_cons_of_none]

theorem firstWithID_cons_some (calls : List (Option Event)) (e : Event) (id : String) :
    firstWithID (some e :: calls) id = if e.ID = id then some e else firstWithID calls id := by
  by_cases h : e.ID = id <;>
    simp [firstWithID, List.reduceOption_cons_of_some, List.find?_cons, h]

/-- The key looked up after one `Add`, whatever the state of the channel. -/
theorem EventStore.Add_lookup (s : EventStore) (e : Event) (id : String) :
    (s.Add (some e)).1.events.lookup id =
      if (s.events.lookup e.ID).isSome = true then s.events.lookup id
      else if e.ID = id then some e else s.events.lookup id := by
  by_cases hp : (s.events.lookup e.ID).isSome = true
  · rw [EventStore.Add_of_present s e hp]
    simp [hp]
  · have hn : s.events.lookup e.ID = none := by simpa using hp
    rw [EventStore.Add_events_of_fresh s e hn]
    by_cases hid : e.ID = id
    · subst hid
      simp [hn, EventMap.lookup_set_self]
    · simp [hn, hid, EventMap.lookup_set_ne _ _ _ _ hid]

theorem EventStore.runAdds_append (xs ys : List (Option Event)) (s : EventStore) :
    s.runAdds (xs ++ ys) =
      (((s.runAdds xs).1.runAdds ys).1, (s.runAdds xs).2 ++ ((s.runAdds xs).1.runAdds ys).2) := by
  induction xs generalizing s with
  | nil => simp [EventStore.runAdds]
  | cons x rest ih => simp [EventStore.runAdds, ih]

theorem EventStore.runAdds_length (xs : List (Option Event)) (s : EventStore) :
    (s.runAdds xs).2.length = xs.length := by
  induction xs generalizing s with
  | nil => simp [EventStore.runAdds]
  | cons x rest ih => simp [EventStore.runAdds, ih]

theorem EventStore.runAdds_closed (xs : List (Option Event)) (s : EventStore) :
    (s.runAdds xs).1.eventCh.closed = s.eventCh.closed := by
  induction xs generalizing s with
  | nil => simp [EventStore.runAdds]
  | cons x rest ih => simp [EventStore.runAdds, ih, EventStore.Add_closed]

/-- A key that is present keeps its event through any sequence of `Add` calls. -/
theorem EventStore.runAdds_lookup_of_some (xs : List (Option Event)) (s : EventStore)
    (id : String) (v : Event) (h : s.events.lookup id = some v) :
    (s.runAdds xs).1.events.lookup id = some v := by
  induction xs generalizing s with
  | nil => simpa [EventStore.runAdds] using h
  | cons x rest ih =>
    simp only [EventStore.runAdds]
    apply ih
    cases x with
    | none => exact h
    | some e =>
      rw [EventStore.Add_lookup]
      by_cases hp : (s.events.lookup e.ID).isSome = true
      · simp [hp, h]
      · by_cases hid : e.ID = id
        · rw [hid, h] at hp
          simp at hp
        · simp [hp, hid, h]

/-- A key that is absent ends up holding the first event added under it. -/
theorem EventStore.runAdds_lookup_of_none (xs : List (Option Event)) (s : EventStore)
    (id : String) (h : s.events.lookup id = none) :
    (s.runAdds xs).1.events.lookup id = firstWithID xs id := by
  induction xs generalizing s with
  | nil => simpa [EventStore.runAdds, firstWithID] using h
  | cons x rest ih =>
    simp only [EventStore.runAdds]
    cases x with
    | none =>
      rw [firstWithID_cons_none]
      exact ih _ h
    | some e =>
      rw [firstWithID_cons_some]
      by_cases hid : e.ID = id
      · have hl : (s.Add (some e)).1.events.lookup id = some e := by
          rw [EventStore.Add_lookup]
          simp [hid, h]
        simp only [hid, if_true]
        exact EventStore.runAdds_lookup_of_some rest _ id e hl
      · have hl : (s.Add (some e)).1.events.lookup id = none := by
          rw [EventStore.Add_lookup]
          simp [hid, h]
        simp only [hid, if_false]
        exact ih _ hl

/-- Adding events with pairwise distinct fresh IDs to an open store: every call
returns nil and the entries are appended in call order. -/
theorem EventStore.runAdds_distinct (es : List Event) (s : EventStore)
    (hopen : s.eventCh.closed = false)
    (hfresh : ∀ e ∈ es, s.events.lookup e.ID = none)
    (hd : (es.map Event.ID).Nodup) :
    (s.runAdds (es.map some)).2 = List.replicate es.length (.returned none) ∧
      (s.runAdds (es.map some)).1.events = s.events ++ es.map (fun e => (e.ID, e)) := by
  induction es generalizing s with
  | nil => simp [EventStore.runAdds]
  | cons e rest ih =>
    have hn : s.events.lookup e.ID = none := hfresh e (List.mem_cons_self _ _)
    rw [List.map_cons, List.nodup_cons] at hd
    have hopen' : (s.Add (some e)).1.eventCh.closed = false := by
      rw [EventStore.Add_closed]
      exact hopen
    have hfresh' : ∀ x ∈ rest, (s.Add (some e)).1.events.lookup x.ID = none := by
      intro x hx
      have hne : e.ID ≠ x.ID := fun heq =>
        hd.1 (heq ▸ List.mem_map_of_mem Event.ID hx)
      rw [EventStore.Add_lookup]
      simp [hn, hne, hfresh x (List.mem_cons_of_mem _ hx)]
    obtain ⟨h1, h2⟩ := ih _ hopen' hfresh' hd.2
    simp only [List.map_cons, EventStore.runAdds, List.length_cons, List.replicate_succ]
    refine ⟨?_, ?_⟩
    · rw [h1, EventStore.Add_result_of_fresh_open s e hopen hn]
    · rw [h2, EventStore.Add_events_of_fresh s e hn, EventMap.set_fresh _ _ _ hn]
      simp

theorem EventStore.step_closed_of_ne_close (s : EventStore) (op : Op) (h : op ≠ .close) :
    (s.step op).eventCh.closed = s.eventCh.closed := by
  cases op with
  | add event => exact EventStore.Add_closed s event
  | close => exact absurd rfl h
  | receive =>
    simp only [EventStore.step, Chan.recv]
    split
    · rfl
    · split_ifs <;> rfl
  | leave => rfl

/-- On a store that is open and is never closed, a key that is present keeps
its event. -/
theorem EventStore.run_lookup_of_some (ops : List Op) (s : EventStore) (id : String)
    (v : Event) (h : s.events.lookup id = some v) :
    (s.run ops).events.lookup id = some v := by
  induction ops generalizing s with
  | nil => exact h
  | cons op rest ih =>
    simp only [EventStore.run]
    apply ih
    cases op with
    | add event =>
      cases event with
      | none => exact h
      | some e =>
        simp only [EventStore.step]
        rw [EventStore.Add_lookup]
        by_cases hp : (s.events.lookup e.ID).isSome = true
        · simp [hp, h]
        · by_cases hid : e.ID = id
          · rw [hid, h] at hp
            simp at hp
          · simp [hp, hid, h]
    | close =>
      simp only [EventStore.step, EventStore.Close]
      split_ifs <;> exact h
    | receive => exact h
    | leave => exact h

/-- On a store that is open and is never closed, an absent key ends up holding
the first event whose `Add` under that key returned nil. -/
theorem EventStore.run_lookup_of_none (ops : List Op) (s : EventStore) (id : String)
    (hopen : s.eventCh.closed = false) (hc : Op.close ∉ ops)
    (h : s.events.lookup id = none) :
    (s.run ops).events.lookup id =
      (s.successfulAdds ops).find? (fun e => decide (e.ID = id)) := by
  induction ops generalizing s with
  | nil => simpa [EventStore.run, EventStore.successfulAdds] using h
  | cons op rest ih =>
    have hne : op ≠ .close := fun heq => hc (heq ▸ List.mem_cons_self _ _)
    have hc' : Op.close ∉ rest := fun hm => hc (List.mem_cons_of_mem _ hm)
    have hopen' : (s.step op).eventCh.closed = false := by
      rw [EventStore.step_closed_of_ne_close s op hne]
      exact hopen
    simp only [EventStore.run]
    cases op with
    | add event =>
      cases event with
      | none => exact ih _ hopen' hc' h
      | some e =>
        simp only [EventStore.successfulAdds]
        by_cases hp : (s.events.lookup e.ID).isSome = true
        · have hr : (s.Add (some e)).2 ≠ .returned none := by
            rw [EventStore.Add_of_present s e hp]
            simp
          have hl : (s.step (.add (some e))).events.lookup id = none := by
            simp only [EventStore.step]
            rw [EventStore.Add_lookup]
            simp [hp, h]
          simp only [hr, if_false]
          exact ih _ hopen' hc' hl
        · have hn : s.events.lookup e.ID = none := by simpa using hp
          have hr : (s.Add (some e)).2 = .returned none :=
            EventStore.Add_result_of_fresh_open s e hopen hn
          simp only [hr, if_true, List.find?_cons]
          by_cases hid : e.ID = id
          · have hl : (s.step (.add (some e))).events.lookup id = some e := by
              simp only [EventStore.step]
              rw [EventStore.Add_lookup]
              simp [hid, h]
            simp only [hid, decide_True]
            exact EventStore.run_lookup_of_some rest _ id e hl
          · have hl : (s.step (.add (some e))).events.lookup id = none := by
              simp only [EventStore.step]
              rw [EventStore.Add_lookup]
              simp [hid, h]
            simp only [hid, decide_False]
            exact ih _ hopen' hc' hl
    | close => exact absurd rfl hne
    | receive =>
      simp only [EventStore.successfulAdds]
      exact ih _ hopen' hc' h
    | leave =>
      simp only [EventStore.successfulAdds]
      exact ih _ hopen' hc' h

/-! ## Lemmas on worker identities -/

theorem UUID.hex_length (u : UUID) (idx : List (Fin 16)) :
    (u.hex idx).length = 2 * idx.length := by
  induction idx with
  | nil => rfl
  | cons i rest ih =>
    simp only [UUID.hex, List.flatMap_cons, List.length_append, List.length_cons,
      List.length_nil] at ih ⊢
    omega

/-- The text form of a UUID has 36 characters. -/
theorem UUID.String_length (u : UUID) : u.String.length = 36 := by
  simp [UUID.String, String.length, UUID.hex_length]

/-! ## Lemmas on upper-casing -/

/-- On ASCII, `unicode.ToUpper` is the upper-casing of basic Latin letters. -/
theorem unicodeToUpper_ascii (caseTable : Char → Char) (c : Char) (h : c.toNat ≤ 0x7F) :
    unicodeToUpper caseTable c = c.toUpper := by
  unfold unicodeToUpper Char.toUpper
  simp only [h, if_true]
  rfl

/-- Beyond ASCII, `unicode.ToUpper` is the case table. -/
theorem unicodeToUpper_of_nonascii (caseTable : Char → Char) (c : Char)
    (h : 0x7F < c.toNat) : unicodeToUpper caseTable c = caseTable c := by
  unfold unicodeToUpper
  rw [if_neg (by omega)]

/-- The upper-casing of each of the 128 ASCII characters: the result is never a
lower-case letter, a character that is not a lower-case letter is kept, and a
lower-case letter goes 32 code points down, to an upper-case letter. -/
theorem toUpper_ascii_table : ∀ n : Fin 128,
    (Char.ofNat n.val).toUpper.isLower = false ∧
      ((Char.ofNat n.val).isLower = false → (Char.ofNat n.val).toUpper = Char.ofNat n.val) ∧
      ((Char.ofNat n.val).isLower = true →
        (Char.ofNat n.val).toUpper.toNat + 32 = (Char.ofNat n.val).toNat ∧
        (Char.ofNat n.val).toUpper.isUpper = true) := by
  decide

theorem unicodeToUpper_ascii_spec (caseTable : Char → Char) (c : Char)
    (h : c.toNat ≤ 0x7F) :
    (unicodeToUpper caseTable c).isLower = false ∧
      (c.isLower = false → unicodeToUpper caseTable c = c) ∧
      (c.isLower = true →
        (unicodeToUpper caseTable c).toNat + 32 = c.toNat ∧
        (unicodeToUpper caseTable c).isUpper = true) := by
  rw [unicodeToUpper_ascii caseTable c h]
  have := toUpper_ascii_table ⟨c.toNat, by omega⟩
  simp only [Char.ofNat_toNat] at this
  exact this

theorem ToUpper_length (caseTable : Char → Char) (s : String) :
    (ToUpper caseTable s).length = s.length := by
  show (s.data.map (unicodeToUpper caseTable)).length = s.data.length
  rw [List.length_map]

/-- On an ASCII string `strings.ToUpper` is the ASCII upper-casing of the
string. -/
theorem ToUpper_of_ascii (caseTable : Char → Char) (s : String)
    (h : ∀ c ∈ s.data, c.toNat ≤ 0x7F) : ToUpper caseTable s = s.toUpper := by
  rw [String.toUpper, String.map_eq]
  unfold ToUpper
  congr 1
  exact List.map_congr_left (fun c hc => unicodeToUpper_ascii caseTable c (h c hc))

/-! ## Lemmas on the POST handler and on closed stores -/

/-- The only error `Add` returns for a non-nil event is `ErrDuplicateEventID`. -/
theorem EventStore.Add_some_error (s : EventStore) (e : Event) (err : Error)
    (h : (s.Add (some e)).2 = .returned (some err)) : err = .ErrDuplicateEventID := by
  unfold EventStore.Add at h
  simp only at h
  split_ifs at h
  · simp only [AddResult.returned.injEq, Option.some.injEq] at h
    exact h.symm
  · cases hs : Chan.trySend s.eventCh e <;> simp [hs] at h

/-- On a closed store `Add` of an event with a fresh ID panics in the send. -/
theorem EventStore.Add_result_of_fresh_closed (s : EventStore) (e : Event)
    (hclosed : s.eventCh.closed = true) (hnew : s.events.lookup e.ID = none) :
    s.Add (some e) = ({ s with events := s.events.set e.ID e }, .panicked) := by
  simp [EventStore.Add, hnew, Chan.trySend, hclosed]

/-- After validation of an event with a non-empty ID the handler's answer is
decided by `Add` of the validated event. -/
theorem handlePostEvent_of_valid (s : EventStore) (now : Int) (e : Event) (hid : e.ID ≠ "") :
    handlePostEvent s now (some e) =
      match s.Add (some (ValidateEvent now e).1) with
      | (s1, .returned (some err)) =>
        if err = .ErrDuplicateEventID then
          (s1, some { status := 409, body := "Event with this ID already exists" })
        else
          (s1, some { status := 500, body := "Failed to store event" })
      | (s1, .returned none) => (s1, some { status := 201, body := e.ID })
      | (s1, .panicked) => (s1, none) := by
  unfold handlePostEvent ValidateEvent
  by_cases h0 : e.Timestamp = 0 <;> simp [hid, h0]

theorem ValidateEvent_ID (now : Int) (e : Event) : (ValidateEvent now e).1.ID = e.ID := by
  unfold ValidateEvent
  split_ifs <;> rfl

/-! ## Lemmas on the feed -/

/-- What one `Add` does to the feed (the values delivered so far followed by the
buffered ones): a call that returns nil leaves it alone or puts its event at the
end; any other call leaves the channel alone. -/
theorem EventStore.Add_feed (s : EventStore) (e : Event) (hw : s.eventCh.wellFormed) :
    ((s.Add (some e)).2 = .returned none →
        ((s.Add (some e)).1.eventCh.received ++ (s.Add (some e)).1.eventCh.buf =
            s.eventCh.received ++ s.eventCh.buf ∨
          (s.Add (some e)).1.eventCh.received ++ (s.Add (some e)).1.eventCh.buf =
            (s.eventCh.received ++ s.eventCh.buf) ++ [e])) ∧
      ((s.Add (some e)).2 ≠ .returned none → (s.Add (some e)).1.eventCh = s.eventCh) := by
  unfold EventStore.Add
  by_cases hp : (s.events.lookup e.ID).isSome = true
  · simp [hp]
  · simp only [hp, if_false]
    unfold Chan.trySend
    by_cases hc : s.eventCh.closed = true
    · simp [hc]
    · by_cases hr : 0 < s.eventCh.recvq
      · have hb : s.eventCh.buf = [] := (hw.2 hr).1
        simp [hc, hr, hb]
      · by_cases hl : s.eventCh.buf.length < s.eventCh.cap
        · simp [hc, hr, hl]
        · simp [hc, hr, hl]

/-- The feed of a store reached by any calls is a subsequence of the feed before
followed by the events whose `Add` returned nil. -/
theorem EventStore.run_feed_sublist (ops : List Op) (s : EventStore) (l : List Event)
    (hw : s.eventCh.wellFormed) (h : (s.eventCh.received ++ s.eventCh.buf).Sublist l) :
    ((s.run ops).eventCh.received ++ (s.run ops).eventCh.buf).Sublist
      (l ++ s.successfulAdds ops) := by
  induction ops generalizing s l with
  | nil => simpa [EventStore.run, EventStore.successfulAdds] using h
  | cons op rest ih =>
    have hw' := EventStore.step_wellFormed s op hw
    simp only [EventStore.run]
    cases op with
    | add event =>
      cases event with
      | none => exact ih _ l hw' h
      | some e =>
        obtain ⟨h1, h2⟩ := EventStore.Add_feed s e hw
        simp only [EventStore.successfulAdds]
        by_cases hr : (s.Add (some e)).2 = .returned none
        · simp only [hr, if_true]
          have hstep : ((s.step (.add (some e))).eventCh.received ++
              (s.step (.add (some e))).eventCh.buf).Sublist (l ++ [e]) := by
            simp only [EventStore.step]
            rcases h1 hr with h3 | h3
            · rw [h3]
              exact h.trans (List.sublist_append_left l [e])
            · rw [h3]
              exact h.append (List.Sublist.refl [e])
          have := ih _ (l ++ [e]) hw' hstep
          simpa using this
        · simp only [hr, if_false]
          refine ih _ l hw' ?_
          simp only [EventStore.step]
          rw [h2 hr]
          exact h
    | close =>
      refine ih _ l hw' ?_
      simp only [EventStore.step, EventStore.Close]
      split_ifs <;> exact h
    | receive =>
      refine ih _ l hw' ?_
      simp only [EventStore.step, Chan.recv]
      split
      · rename_i e tl hb
        rw [hb] at h
        simpa using h
      · split_ifs <;> exact h
    | leave => exact ih _ l hw' h

/-- The events whose `Add` returned nil carry pairwise distinct IDs, none of
which was a key before. -/
theorem EventStore.successfulAdds_fresh (ops : List Op) (s : EventStore) :
    (∀ e ∈ s.successfulAdds ops, s.events.lookup e.ID = none) ∧
      ((s.successfulAdds ops).map Event.ID).Nodup := by
  induction ops generalizing s with
  | nil => simp [EventStore.successfulAdds]
  | cons op rest ih =>
    obtain ⟨ih1, ih2⟩ := ih (s.step op)
    have mono : ∀ id, (s.step op).events.lookup id = none → s.events.lookup id = none := by
      intro id hn
      cases hl : s.events.lookup id with
      | none => rfl
      | some v =>
        have := EventStore.run_lookup_of_some [op] s id v hl
        simp only [EventStore.run] at this
        rw [this] at hn
        cases hn
    cases op with
    | add event =>
      cases event with
      | none => exact ⟨fun e he => mono _ (ih1 e he), ih2⟩
      | some e =>
        simp only [EventStore.successfulAdds]
        by_cases hr : (s.Add (some e)).2 = .returned none
        · simp only [hr, if_true]
          have hn : s.events.lookup e.ID = none := by
            cases hl : s.events.lookup e.ID with
            | none => rfl
            | some v =>
              rw [EventStore.Add_of_present s e (by simp [hl])] at hr
              simp at hr
          have hl : (s.step (.add (some e))).events.lookup e.ID = some e := by
            simp only [EventStore.step]
            rw [EventStore.Add_lookup]
            simp [hn]
          refine ⟨?_, ?_⟩
          · intro x hx
            rcases List.mem_cons.mp hx with hx | hx
            · rw [hx]
              exact hn
            · exact mono _ (ih1 x hx)
          · rw [List.map_cons, List.nodup_cons]
            refine ⟨?_, ih2⟩
            intro hmem
            obtain ⟨x, hx, hxid⟩ := List.mem_map.mp hmem
            have := ih1 x hx
            rw [hxid, hl] at this
            cases this
        · simp only [hr, if_false]
          exact ⟨fun x hx => mono _ (ih1 x hx), ih2⟩
    | close => exact ⟨fun e he => mono _ (ih1 e he), ih2⟩
    | receive => exact ⟨fun e he => mono _ (ih1 e he), ih2⟩
    | leave => exact ⟨fun e he => mono _ (ih1 e he), ih2⟩

/-! ## Lemmas on the worker loop -/

/-- On a closed store no call reopens the channel, and the only thing a call can
do to the buffer is take values from its head. -/
theorem EventStore.step_of_closed (s : EventStore) (op : Op)
    (hc : s.eventCh.closed = true) :
    (s.step op).eventCh.closed = true ∧ (s.step op).eventCh.buf <:+ s.eventCh.buf := by
  cases op with
  | add event =>
    refine ⟨by rw [EventStore.step, EventStore.Add_closed]; exact hc, ?_⟩
    rcases EventStore.Add_eventCh s event with h | ⟨e, h⟩
    · simp only [EventStore.step, h]
      exact List.suffix_refl _
    · simp [Chan.trySend, hc] at h
  | close =>
    have hs : s.step .close = s := by
      simp [EventStore.step, EventStore.Close, hc]
    rw [hs]
    exact ⟨hc, List.suffix_refl _⟩
  | receive =>
    refine ⟨by rw [EventStore.step_closed_of_ne_close s .receive (by simp)]; exact hc, ?_⟩
    simp only [EventStore.step, Chan.recv]
    split
    · rename_i e tl hb
      rw [hb]
      exact List.suffix_cons e tl
    · rw [if_pos hc]
  | leave => exact ⟨hc, List.suffix_refl _⟩

theorem EventStore.run_of_closed (ops : List Op) (s : EventStore)
    (hc : s.eventCh.closed = true) :
    (s.run ops).eventCh.closed = true ∧ (s.run ops).eventCh.buf <:+ s.eventCh.buf := by
  induction ops generalizing s with
  | nil => exact ⟨hc, List.suffix_refl _⟩
  | cons op rest ih =>
    obtain ⟨h1, h2⟩ := EventStore.step_of_closed s op hc
    obtain ⟨h3, h4⟩ := ih (s.step op) h1
    exact ⟨h3, h4.trans h2⟩

/-- On a closed store no `Add` hands its event to a receiver. -/
theorem EventStore.handsOff_of_closed (s : EventStore) (e : Event)
    (hc : s.eventCh.closed = true) : s.handsOff e = false := by
  unfold EventStore.handsOff
  rcases EventStore.Add_eventCh s (some e) with h | ⟨e', h⟩
  · rw [h]
    simp
  · simp [Chan.trySend, hc] at h

theorem EventStore.handoffs_of_closed (ops : List Op) (s : EventStore)
    (hc : s.eventCh.closed = true) : s.handoffs ops = [] := by
  induction ops generalizing s with
  | nil => rfl
  | cons op rest ih =>
    have hc' := (EventStore.step_of_closed s op hc).1
    cases op with
    | add event =>
      cases event with
      | none => exact ih _ hc'
      | some e =>
        simp only [EventStore.handoffs, EventStore.handsOff_of_closed s e hc,
          Bool.false_eq_true, if_false]
        exact ih _ hc'
    | close => exact ih _ hc'
    | receive => exact ih _ hc'
    | leave => exact ih _ hc'

theorem EventStore.soleHandoff_mem (ops : List Op) (s : EventStore) (e : Event)
    (h : s.soleHandoff ops = some e) : e ∈ s.handoffs ops := by
  induction ops generalizing s with
  | nil => simp [EventStore.soleHandoff] at h
  | cons op rest ih =>
    cases op with
    | add event =>
      cases event with
      | none => exact ih _ h
      | some e0 =>
        simp only [EventStore.soleHandoff] at h
        simp only [EventStore.handoffs]
        by_cases hh : s.handsOff e0 = true
        · simp only [hh, if_true]
          by_cases hq : s.eventCh.recvq = 1
          · simp only [hh, hq, decide_True, Bool.and_self, if_true, Option.some.injEq] at h
            rw [h]
            exact List.mem_cons_self _ _
          · simp only [hh, hq, decide_False, Bool.and_false, Bool.false_eq_true,
              if_false] at h
            exact List.mem_cons_of_mem _ (ih _ h)
        · simp only [hh, Bool.false_and, Bool.false_eq_true, if_false] at h
          simp only [hh, Bool.false_eq_true, if_false]
          exact ih _ h
    | close => exact ih _ h
    | receive => exact ih _ h
    | leave => exact ih _ h

/-- Whatever wakes a blocked worker was handed off by a sender. -/
theorem EventStore.wakes_mem (ops : List Op) (s : EventStore) (handed : Option Event)
    (e : Event) (h : s.wakes ops handed = some e) : e ∈ s.handoffs ops := by
  unfold EventStore.wakes at h
  split at h
  · rename_i e0 hf
    simp only [Option.some.injEq] at h
    subst h
    cases hh0 : handed with
    | none => simp [hh0, Option.filter] at hf
    | some e1 =>
      by_cases hm : e1 ∈ s.handoffs ops
      · simp only [hh0, Option.filter, hm, decide_True, if_true, Option.some.injEq] at hf
        subst hf
        exact hm
      · simp [hh0, Option.filter, hm] at hf
  · exact EventStore.soleHandoff_mem ops s e h

/-- On a closed store no sender wakes a blocked worker. -/
theorem EventStore.wakes_of_closed (ops : List Op) (s : EventStore) (handed : Option Event)
    (hc : s.eventCh.closed = true) : s.wakes ops handed = none := by
  cases h : s.wakes ops handed with
  | none => rfl
  | some e =>
    have := EventStore.wakes_mem ops s handed e h
    rw [EventStore.handoffs_of_closed ops s hc] at this
    cases this

/-- A turn that takes the `ctx.Done()` case of the `select`. -/
theorem Worker.turn_running_cancel (caseTable : Char → Char) (w : Worker) (r : StartResult)
    (t : Tick) (hr : r.exit = .running)
    (h : (t.ctxDone && (t.pickCtx || !(!(r.store.run t.others).eventCh.buf.isEmpty ||
      (r.store.run t.others).eventCh.closed))) = true) :
    w.turn caseTable r t =
      { r with exit := .cancelled, store := r.store.run t.others,
               log := r.log ++ ["Worker " ++ w.id ++ " shutting down..."] } := by
  simp only [Worker.turn, hr, EventStore.EventChannel, h, if_true]

/-- A turn that receives a buffered value. -/
theorem Worker.turn_running_value (caseTable : Char → Char) (w : Worker) (r : StartResult)
    (t : Tick) (e : Event) (tl : List Event) (hr : r.exit = .running)
    (h : (t.ctxDone && (t.pickCtx || !(!(r.store.run t.others).eventCh.buf.isEmpty ||
      (r.store.run t.others).eventCh.closed))) = false)
    (hb : (r.store.run t.others).eventCh.buf = e :: tl) :
    w.turn caseTable r t =
      { exit := .running,
        store := { r.store.run t.others with
          eventCh := { (r.store.run t.others).eventCh with
            buf := tl, received := (r.store.run t.others).eventCh.received ++ [e] } },
        handled := r.handled ++ [e],
        published := r.published ++ [(w.processEvent caseTable t.now e).1],
        log := r.log ++ [(w.processEvent caseTable t.now e).2] } := by
  simp only [Worker.turn, hr, EventStore.EventChannel, h, Bool.false_eq_true, if_false]
  simp only [Chan.recv, hb]

/-- A turn that finds the feed closed and drained. -/
theorem Worker.turn_running_closed (caseTable : Char → Char) (w : Worker) (r : StartResult)
    (t : Tick) (hr : r.exit = .running)
    (h : (t.ctxDone && (t.pickCtx || !(!(r.store.run t.others).eventCh.buf.isEmpty ||
      (r.store.run t.others).eventCh.closed))) = false)
    (hb : (r.store.run t.others).eventCh.buf = [])
    (hc : (r.store.run t.others).eventCh.closed = true) :
    w.turn caseTable r t =
      { r with exit := .feedClosed, store := r.store.run t.others,
               log := r.log ++
                 ["Event channel closed, worker " ++ w.id ++ " shutting down"] } := by
  simp only [Worker.turn, hr, EventStore.EventChannel, h, Bool.false_eq_true, if_false]
  simp only [Chan.recv, hb, hc, if_true]

/-- A blocked worker that a sender wakes with a value. -/
theorem Worker.turn_parked_handed (caseTable : Char → Char) (w : Worker) (r : StartResult)
    (t : Tick) (e : Event) (hr : r.exit = .parked)
    (h : r.store.wakes t.others t.handed = some e) :
    w.turn caseTable r t =
      { exit := .running, store := r.store.run t.others,
        handled := r.handled ++ [e],
        published := r.published ++ [(w.processEvent caseTable t.now e).1],
        log := r.log ++ [(w.processEvent caseTable t.now e).2] } := by
  simp only [Worker.turn, hr, h]

/-- A blocked worker that no sender has woken, on a channel that is closed by
now: it returns, through one case or the other. -/
theorem Worker.turn_parked_closed (caseTable : Char → Char) (w : Worker) (r : StartResult)
    (t : Tick) (hr : r.exit = .parked)
    (h : r.store.wakes t.others t.handed = none)
    (hc : (r.store.run t.others).eventCh.closed = true) :
    (w.turn caseTable r t).handled = r.handled ∧
      ((w.turn caseTable r t).exit = .feedClosed ∨ (w.turn caseTable r t).exit = .cancelled) ∧
      (t.ctxDone = false → (w.turn caseTable r t).exit = .feedClosed) := by
  simp only [Worker.turn, hr, h, hc]
  by_cases hd : t.ctxDone = true
  · by_cases hp : t.pickCtx = true
    · simp [hd, hp]
    · simp [hd, hp]
  · simp [hd]

/-- A worker that has returned stays as it is. -/
theorem Worker.loop_of_exited (caseTable : Char → Char) (w : Worker) (sched : List Tick)
    (r : StartResult) (h : r.exit = .feedClosed ∨ r.exit = .cancelled) :
    w.loop caseTable r sched = r := by
  induction sched with
  | nil => rfl
  | cons t rest ih =>
    have ht : w.turn caseTable r t = r := by
      rcases h with h | h <;> simp only [Worker.turn, h]
    show w.loop caseTable (w.turn caseTable r t) rest = r
    rw [ht]
    exact ih

theorem Worker.loop_cons (caseTable : Char → Char) (w : Worker) (r : StartResult)
    (t : Tick) (rest : List Tick) :
    w.loop caseTable r (t :: rest) = w.loop caseTable (w.turn caseTable r t) rest :=
  rfl

theorem Worker.loop_append (caseTable : Char → Char) (w : Worker) (r : StartResult)
    (pre post : List Tick) :
    w.loop caseTable r (pre ++ post) = w.loop caseTable (w.loop caseTable r pre) post := by
  simp [Worker.loop, List.foldl_append]

/-- The loop on a closed store, from any point of it and given one turn more
than there are buffered events: it returns, having handled a subsequence of the
buffer. -/
theorem Worker.loop_of_closed (caseTable : Char → Char) (w : Worker) (sched : List Tick)
    (r : StartResult) (halive : r.exit = .running ∨ r.exit = .parked)
    (hc : r.store.eventCh.closed = true)
    (hfuel : r.store.eventCh.buf.length < sched.length) :
    ∃ h : List Event,
      h.Sublist r.store.eventCh.buf ∧
      (w.loop caseTable r sched).handled = r.handled ++ h ∧
      ((w.loop caseTable r sched).exit = .feedClosed ∨
        (w.loop caseTable r sched).exit = .cancelled) ∧
      ((∀ t ∈ sched, t.ctxDone = false) → (w.loop caseTable r sched).exit = .feedClosed) ∧
      (r.exit = .running → (∀ t ∈ sched, t.ctxDone = false ∧ t.others = []) →
        h = r.store.eventCh.buf ∧ (w.loop caseTable r sched).store.eventCh.buf = []) := by
  induction sched generalizing r with
  | nil => simp at hfuel
  | cons t rest ih =>
    obtain ⟨hc1, hsuf⟩ := EventStore.run_of_closed t.others r.store hc
    rw [Worker.loop_cons]
    rcases halive with hr | hr
    · by_cases hcond : (t.ctxDone && (t.pickCtx ||
          !(!(r.store.run t.others).eventCh.buf.isEmpty ||
            (r.store.run t.others).eventCh.closed))) = true
      · rw [Worker.turn_running_cancel caseTable w r t hr hcond,
          Worker.loop_of_exited caseTable w rest _ (Or.inr rfl)]
        have hdone : t.ctxDone = true := by
          cases hd : t.ctxDone
          · simp [hd] at hcond
          · rfl
        refine ⟨[], List.nil_sublist _, by simp, Or.inr rfl, ?_, ?_⟩
        · intro hall
          have := hall t (List.mem_cons_self _ _)
          rw [hdone] at this
          cases this
        · intro _ hall
          have := (hall t (List.mem_cons_self _ _)).1
          rw [hdone] at this
          cases this
      · have hcond' : (t.ctxDone && (t.pickCtx ||
            !(!(r.store.run t.others).eventCh.buf.isEmpty ||
              (r.store.run t.others).eventCh.closed))) = false := by simpa using hcond
        cases hb : (r.store.run t.others).eventCh.buf with
        | nil =>
          rw [Worker.turn_running_closed caseTable w r t hr hcond' hb hc1,
            Worker.loop_of_exited caseTable w rest _ (Or.inl rfl)]
          refine ⟨[], List.nil_sublist _, by simp, Or.inl rfl, fun _ => rfl, ?_⟩
          intro _ hall
          have ho := (hall t (List.mem_cons_self _ _)).2
          rw [ho] at hb
          exact ⟨hb.symm, by rw [ho]; exact hb⟩
        | cons e tl =>
          rw [Worker.turn_running_value caseTable w r t e tl hr hcond' hb]
          have hlen : tl.length < rest.length := by
            have h1 := hsuf.length_le
            rw [hb] at h1
            simp only [List.length_cons] at h1 hfuel
            omega
          obtain ⟨h', hsub, hhand, hexit, hnc, hund⟩ := ih
            { exit := .running,
              store := { r.store.run t.others with
                eventCh := { (r.store.run t.others).eventCh with
                  buf := tl, received := (r.store.run t.others).eventCh.received ++ [e] } },
              handled := r.handled ++ [e],
              published := r.published ++ [(w.processEvent caseTable t.now e).1],
              log := r.log ++ [(w.processEvent caseTable t.now e).2] }
            (Or.inl rfl) hc1 hlen
          refine ⟨e :: h', ?_, ?_, hexit, ?_, ?_⟩
          · have h2 : (e :: tl).Sublist r.store.eventCh.buf := hb ▸ hsuf.sublist
            exact (List.Sublist.cons₂ e hsub).trans h2
          · rw [hhand]
            simp
          · intro hall
            exact hnc (fun t' ht' => hall t' (List.mem_cons_of_mem _ ht'))
          · intro _ hall
            have ho := (hall t (List.mem_cons_self _ _)).2
            obtain ⟨h3, h4⟩ := hund rfl (fun t' ht' => hall t' (List.mem_cons_of_mem _ ht'))
            rw [ho] at hb
            refine ⟨?_, h4⟩
            rw [h3]
            exact hb.symm
    · have hh : r.store.wakes t.others t.handed = none :=
        EventStore.wakes_of_closed t.others r.store t.handed hc
      obtain ⟨h1, h2, h3⟩ := Worker.turn_parked_closed caseTable w r t hr hh hc1
      rw [Worker.loop_of_exited caseTable w rest _ h2]
      refine ⟨[], List.nil_sublist _, by simp [h1], h2, ?_, ?_⟩
      · intro hall
        exact h3 (hall t (List.mem_cons_self _ _))
      · intro hrun
        rw [hr] at hrun
        cases hrun

/-- What the loop publishes is the transform of what it handled, in order. -/
theorem Worker.turn_published (caseTable : Char → Char) (w : Worker) (r : StartResult)
    (t : Tick)
    (h : r.published.map TransformedEvent.ID = r.handled.map Event.ID ∧
      r.published.map TransformedEvent.Payload =
        r.handled.map (fun e => ToUpper caseTable e.Payload) ∧
      ∀ p ∈ r.published, p.ProcessorID = w.id) :
    (w.turn caseTable r t).published.map TransformedEvent.ID =
        (w.turn caseTable r t).handled.map Event.ID ∧
      (w.turn caseTable r t).published.map TransformedEvent.Payload =
        (w.turn caseTable r t).handled.map (fun e => ToUpper caseTable e.Payload) ∧
      ∀ p ∈ (w.turn caseTable r t).published, p.ProcessorID = w.id := by
  obtain ⟨h1, h2, h3⟩ := h
  unfold Worker.turn
  split
  · exact ⟨h1, h2, h3⟩
  · exact ⟨h1, h2, h3⟩
  · simp only
    split_ifs
    · exact ⟨h1, h2, h3⟩
    · split
      · refine ⟨by simp [h1, Worker.processEvent], by simp [h2, Worker.processEvent], ?_⟩
        intro p hp
        rcases List.mem_append.mp hp with hp | hp
        · exact h3 p hp
        · simp only [List.mem_singleton] at hp
          rw [hp]
          rfl
      · exact ⟨h1, h2, h3⟩
      · exact ⟨h1, h2, h3⟩
  · simp only
    split
    · refine ⟨by simp [h1, Worker.processEvent], by simp [h2, Worker.processEvent], ?_⟩
      intro p hp
      rcases List.mem_append.mp hp with hp | hp
      · exact h3 p hp
      · simp only [List.mem_singleton] at hp
        rw [hp]
        rfl
    · split_ifs <;> exact ⟨h1, h2, h3⟩

theorem Worker.loop_published (caseTable : Char → Char) (w : Worker) (sched : List Tick)
    (r : StartResult)
    (h : r.published.map TransformedEvent.ID = r.handled.map Event.ID ∧
      r.published.map TransformedEvent.Payload =
        r.handled.map (fun e => ToUpper caseTable e.Payload) ∧
      ∀ p ∈ r.published, p.ProcessorID = w.id) :
    (w.loop caseTable r sched).published.map TransformedEvent.ID =
        (w.loop caseTable r sched).handled.map Event.ID ∧
      (w.loop caseTable r sched).published.map TransformedEvent.Payload =
        (w.loop caseTable r sched).handled.map (fun e => ToUpper caseTable e.Payload) ∧
      ∀ p ∈ (w.loop caseTable r sched).published, p.ProcessorID = w.id := by
  induction sched generalizing r with
  | nil => exact h
  | cons t rest ih =>
    rw [Worker.loop_cons]
    exact ih _ (Worker.turn_published caseTable w r t h)

/-- The loop from a turn during which the store is closed, for a worker about
to run the `select` or blocked in it: it returns within as many further turns
as there are buffered events (one more if a sender woke it first). -/
theorem Worker.loop_closing (caseTable : Char → Char) (w : Worker) (r : StartResult)
    (t : Tick) (rest : List Tick) (halive : r.exit = .running ∨ r.exit = .parked)
    (hc : (r.store.run t.others).eventCh.closed = true)
    (hfuel : (r.store.run t.others).eventCh.buf.length +
      (if r.exit = .parked then 1 else 0) ≤ rest.length) :
    ∃ h : List Event,
      h.Sublist (r.store.run t.others).eventCh.buf ∧
      ((w.loop caseTable r (t :: rest)).handled = r.handled ++ h ∨
        (r.exit = .parked ∧ ∃ e, r.store.wakes t.others t.handed = some e ∧
          e ∈ r.store.handoffs t.others ∧
          (w.loop caseTable r (t :: rest)).handled = r.handled ++ e :: h)) ∧
      ((w.loop caseTable r (t :: rest)).exit = .feedClosed ∨
        (w.loop caseTable r (t :: rest)).exit = .cancelled) ∧
      ((∀ t' ∈ t :: rest, t'.ctxDone = false) →
        (w.loop caseTable r (t :: rest)).exit = .feedClosed) ∧
      (r.exit = .running → (∀ t' ∈ t :: rest, t'.ctxDone = false) →
        (∀ t' ∈ rest, t'.others = []) →
        h = (r.store.run t.others).eventCh.buf ∧
        (w.loop caseTable r (t :: rest)).store.eventCh.buf = []) := by
  rw [Worker.loop_cons]
  rcases halive with hr | hr
  · simp only [hr, reduceCtorEq, if_false, Nat.add_zero] at hfuel
    by_cases hcond : (t.ctxDone && (t.pickCtx ||
        !(!(r.store.run t.others).eventCh.buf.isEmpty ||
          (r.store.run t.others).eventCh.closed))) = true
    · rw [Worker.turn_running_cancel caseTable w r t hr hcond,
        Worker.loop_of_exited caseTable w rest _ (Or.inr rfl)]
      have hdone : t.ctxDone = true := by
        cases hd : t.ctxDone
        · simp [hd] at hcond
        · rfl
      refine ⟨[], List.nil_sublist _, Or.inl (by simp), Or.inr rfl, ?_, ?_⟩
      · intro hall
        have := hall t (List.mem_cons_self _ _)
        rw [hdone] at this
        cases this
      · intro _ hall
        have := hall t (List.mem_cons_self _ _)
        rw [hdone] at this
        cases this
    · have hcond' : (t.ctxDone && (t.pickCtx ||
          !(!(r.store.run t.others).eventCh.buf.isEmpty ||
            (r.store.run t.others).eventCh.closed))) = false := by simpa using hcond
      cases hb : (r.store.run t.others).eventCh.buf with
      | nil =>
        rw [Worker.turn_running_closed caseTable w r t hr hcond' hb hc,
          Worker.loop_of_exited caseTable w rest _ (Or.inl rfl)]
        exact ⟨[], List.nil_sublist _, Or.inl (by simp), Or.inl rfl, fun _ => rfl,
          fun _ _ _ => ⟨rfl, hb⟩⟩
      | cons e tl =>
        rw [Worker.turn_running_value caseTable w r t e tl hr hcond' hb]
        have hlen : tl.length < rest.length := by
          rw [hb] at hfuel
          simp only [List.length_cons] at hfuel
          omega
        obtain ⟨h', hsub, hhand, hexit, hnc, hund⟩ := Worker.loop_of_closed caseTable w rest
          { exit := .running,
            store := { r.store.run t.others with
              eventCh := { (r.store.run t.others).eventCh with
                buf := tl, received := (r.store.run t.others).eventCh.received ++ [e] } },
            handled := r.handled ++ [e],
            published := r.published ++ [(w.processEvent caseTable t.now e).1],
            log := r.log ++ [(w.processEvent caseTable t.now e).2] }
          (Or.inl rfl) hc hlen
        refine ⟨e :: h', List.Sublist.cons₂ e hsub, Or.inl ?_, hexit, ?_, ?_⟩
        · rw [hhand]
          simp
        · intro hall
          exact hnc (fun t' ht' => hall t' (List.mem_cons_of_mem _ ht'))
        · intro _ hall ho
          obtain ⟨h3, h4⟩ := hund rfl
            (fun t' ht' => ⟨hall t' (List.mem_cons_of_mem _ ht'), ho t' ht'⟩)
          refine ⟨?_, h4⟩
          rw [h3]
  · simp only [hr, if_true] at hfuel
    cases hh : r.store.wakes t.others t.handed with
    | some e =>
      have hmem : e ∈ r.store.handoffs t.others :=
        EventStore.wakes_mem t.others r.store t.handed e hh
      rw [Worker.turn_parked_handed caseTable w r t e hr hh]
      obtain ⟨h', hsub, hhand, hexit, hnc, _⟩ := Worker.loop_of_closed caseTable w rest
        { exit := .running, store := r.store.run t.others,
          handled := r.handled ++ [e],
          published := r.published ++ [(w.processEvent caseTable t.now e).1],
          log := r.log ++ [(w.processEvent caseTable t.now e).2] }
        (Or.inl rfl) hc (by show (r.store.run t.others).eventCh.buf.length < rest.length; omega)
      refine ⟨h', hsub, Or.inr ⟨hr, e, rfl, hmem, ?_⟩, hexit, ?_, ?_⟩
      · rw [hhand]
        simp
      · intro hall
        exact hnc (fun t' ht' => hall t' (List.mem_cons_of_mem _ ht'))
      · intro hrun
        rw [hr] at hrun
        cases hrun
    | none =>
      obtain ⟨h1, h2, h3⟩ := Worker.turn_parked_closed caseTable w r t hr hh hc
      rw [Worker.loop_of_exited caseTable w rest _ h2]
      refine ⟨[], List.nil_sublist _, Or.inl (by simp [h1]), h2, ?_, ?_⟩
      · intro hall
        exact h3 (hall t (List.mem_cons_self _ _))
      · intro hrun
        rw [hr] at hrun
        cases hrun

/-! ## The claims -/

/-- C1. On an open store, `Add` of an event whose ID is non-empty and not yet a
key returns nil, and `Get` of that ID then returns that very event without
error: same ID, same Timestamp, same Payload. -/
theorem Add_then_Get_roundtrip (s : EventStore) (e : Event)
    (hopen : s.eventCh.closed = false) (_hid : e.ID ≠ "")
    (hnew : s.events.lookup e.ID = none) :
    (s.Add (some e)).2 = .returned none ∧
      ∃ got, (s.Add (some e)).1.Get e.ID = .ok got ∧
        got.ID = e.ID ∧ got.Timestamp = e.Timestamp ∧ got.Payload = e.Payload := by
  refine ⟨EventStore.Add_result_of_fresh_open s e hopen hnew, e, ?_, rfl, rfl, rfl⟩
  simp [EventStore.Get, EventStore.Add_events_of_fresh s e hnew, EventMap.lookup_set_self]

theorem Add_then_Get_roundtrip_witness :
    ((NewEventStore 10).Add (some ⟨"test-id", 1700000000, "test payload"⟩)).2 = .returned none ∧
      ∃ got, ((NewEventStore 10).Add (some ⟨"test-id", 1700000000, "test payload"⟩)).1.Get
          (Event.mk "test-id" 1700000000 "test payload").ID = .ok got ∧
        got.ID = "test-id" ∧ got.Timestamp = 1700000000 ∧ got.Payload = "test payload" :=
  Add_then_Get_roundtrip (NewEventStore 10) ⟨"test-id", 1700000000, "test payload"⟩
    rfl (by decide) rfl

/-- C2. If the store holds an event under `k`, `Add` of any event with ID `k`
returns `ErrDuplicateEventID` and the store afterwards is the store before: the
map (so `k` still maps to the stored event and no other entry moved) and the
channel (nothing pushed, nothing handed to a receiver). -/
theorem Add_duplicate_rejected (s : EventStore) (k : String) (stored e : Event)
    (hk : s.events.lookup k = some stored) (he : e.ID = k) :
    (s.Add (some e)).2 = .returned (some .ErrDuplicateEventID) ∧
      (s.Add (some e)).1 = s ∧
      (s.Add (some e)).1.events.lookup k = some stored ∧
      (s.Add (some e)).1.eventCh = s.eventCh := by
  have h : (s.events.lookup e.ID).isSome = true := by simp [he, hk]
  rw [EventStore.Add_of_present s e h]
  exact ⟨rfl, rfl, hk, rfl⟩

theorem Add_duplicate_rejected_witness :
    (((NewEventStore 10).Add (some ⟨"test-id", 7, "first"⟩)).1.Add
        (some ⟨"test-id", 8, "second"⟩)).2 = .returned (some .ErrDuplicateEventID) ∧
      (((NewEventStore 10).Add (some ⟨"test-id", 7, "first"⟩)).1.Add
        (some ⟨"test-id", 8, "second"⟩)).1 =
          ((NewEventStore 10).Add (some ⟨"test-id", 7, "first"⟩)).1 ∧
      (((NewEventStore 10).Add (some ⟨"test-id", 7, "first"⟩)).1.Add
        (some ⟨"test-id", 8, "second"⟩)).1.events.lookup "test-id" =
          some ⟨"test-id", 7, "first"⟩ ∧
      (((NewEventStore 10).Add (some ⟨"test-id", 7, "first"⟩)).1.Add
        (some ⟨"test-id", 8, "second"⟩)).1.eventCh =
          ((NewEventStore 10).Add (some ⟨"test-id", 7, "first"⟩)).1.eventCh :=
  Add_duplicate_rejected ((NewEventStore 10).Add (some ⟨"test-id", 7, "first"⟩)).1
    "test-id" ⟨"test-id", 7, "first"⟩ ⟨"test-id", 8, "second"⟩ (by decide) rfl

/-- C3, the claim as stated fails: `Add` of a non-nil event with the empty ID to
a fresh store returns nil, not `ErrMissingID`, and the number of stored events
goes from 0 to 1. -/
theorem Add_empty_ID_counterexample :
    ((NewEventStore 10).Add (some ⟨"", 5, "p"⟩)).2 = .returned none ∧
      ((NewEventStore 10).Add (some ⟨"", 5, "p"⟩)).2 ≠ .returned (some .ErrMissingID) ∧
      (NewEventStore 10).GetAll.length = 0 ∧
      ((NewEventStore 10).Add (some ⟨"", 5, "p"⟩)).1.GetAll.length = 1 := by
  decide

/-- C3, amended.  For a non-nil event with the empty ID it is `ValidateEvent`
that fails with `ErrMissingID` (leaving the event as it was), so the POST handler
answers 400 and the store, hence its size, is unchanged.  `Add` itself never
answers `ErrMissingID` for it: if the empty string is already a key it returns
`ErrDuplicateEventID` and the store is unchanged; otherwise the event is stored,
the number of stored events grows by one, and on an open store nil is returned. -/
theorem Add_empty_ID_not_checked (s : EventStore) (now : Int) (e : Event) (he : e.ID = "") :
    ValidateEvent now e = (e, some .ErrMissingID) ∧
      handlePostEvent s now (some e) = (s, some ⟨400, "missing event ID"⟩) ∧
      (s.Add (some e)).2 ≠ .returned (some .ErrMissingID) ∧
      ((s.events.lookup "").isSome = true →
        s.Add (some e) = (s, .returned (some .ErrDuplicateEventID))) ∧
      (s.events.lookup "" = none →
        (s.Add (some e)).1.GetAll.length = s.GetAll.length + 1 ∧
        (s.Add (some e)).1.Get "" = .ok e ∧
        (s.eventCh.closed = false → (s.Add (some e)).2 = .returned none)) := by
  have hv : ValidateEvent now e = (e, some .ErrMissingID) := by simp [ValidateEvent, he]
  refine ⟨hv, ?_, ?_, ?_, ?_⟩
  · simp [handlePostEvent, hv, Error.Error]
  · unfold EventStore.Add
    simp only
    split_ifs
    · simp
    · cases h : Chan.trySend s.eventCh e <;> simp [h]
  · intro hp
    exact EventStore.Add_of_present s e (by rw [he]; exact hp)
  · intro hn
    have hn' : s.events.lookup e.ID = none := by rw [he]; exact hn
    refine ⟨?_, ?_, fun hopen => EventStore.Add_result_of_fresh_open s e hopen hn'⟩
    · simp [EventStore.GetAll, EventStore.Add_events_of_fresh s e hn',
        EventMap.set_fresh _ _ _ hn']
    · have := EventMap.lookup_set_self s.events e.ID e
      rw [he] at this
      simp [EventStore.Get, EventStore.Add_events_of_fresh s e hn', he, this]

theorem Add_empty_ID_not_checked_witness :
    ValidateEvent 1700000000 ⟨"", 0, "hello"⟩ = (⟨"", 0, "hello"⟩, some .ErrMissingID) ∧
      handlePostEvent (NewEventStore 10) 1700000000 (some ⟨"", 0, "hello"⟩) =
        (NewEventStore 10, some ⟨400, "missing event ID"⟩) ∧
      ((NewEventStore 10).Add (some ⟨"", 0, "hello"⟩)).2 ≠ .returned (some .ErrMissingID) ∧
      (((NewEventStore 10).events.lookup "").isSome = true →
        (NewEventStore 10).Add (some ⟨"", 0, "hello"⟩) =
          (NewEventStore 10, .returned (some .ErrDuplicateEventID))) ∧
      ((NewEventStore 10).events.lookup "" = none →
        ((NewEventStore 10).Add (some ⟨"", 0, "hello"⟩)).1.GetAll.length =
          (NewEventStore 10).GetAll.length + 1 ∧
        ((NewEventStore 10).Add (some ⟨"", 0, "hello"⟩)).1.Get "" = .ok ⟨"", 0, "hello"⟩ ∧
        ((NewEventStore 10).eventCh.closed = false →
          ((NewEventStore 10).Add (some ⟨"", 0, "hello"⟩)).2 = .returned none)) :=
  Add_empty_ID_not_checked (NewEventStore 10) 1700000000 ⟨"", 0, "hello"⟩ rfl

/-- C4. `Add` of the nil event returns `ErrMissingID` on every store, open or
closed, and leaves the map and the channel as they were. -/
theorem Add_nil_rejected (s : EventStore) :
    (s.Add none).2 = .returned (some .ErrMissingID) ∧
      (s.Add none).1.events = s.events ∧
      (s.Add none).1.eventCh = s.eventCh :=
  ⟨rfl, rfl, rfl⟩

/-- C5, the claim as stated fails for an unbuffered store with a consumer
waiting: the queue holds `bufferSize = 0` events, yet the event is not dropped
from the feed, the waiting consumer receives it. -/
theorem Add_full_queue_counterexample :
    ((NewEventStore 0).run [.receive]).eventCh.closed = false ∧
      ((NewEventStore 0).run [.receive]).eventCh.buf.length =
        ((NewEventStore 0).run [.receive]).eventCh.cap ∧
      ((NewEventStore 0).run [.receive]).events.lookup "e1" = none ∧
      (((NewEventStore 0).run [.receive]).Add (some ⟨"e1", 5, "abc"⟩)).2 = .returned none ∧
      ((NewEventStore 0).run [.receive]).eventCh.received = [] ∧
      (((NewEventStore 0).run [.receive]).Add (some ⟨"e1", 5, "abc"⟩)).1.eventCh.received =
        [⟨"e1", 5, "abc"⟩] := by
  decide

/-- C5, amended.  On an open store whose queue holds `bufferSize` events and on
which no consumer is parked (on a well-formed channel that is every full store
with `bufferSize > 0`), `Add` of a non-nil event with a fresh ID returns nil, the
map afterwards holds the event under its ID, and the channel is exactly as
before: the event is dropped from the feed. -/
theorem Add_full_queue_drops (s : EventStore) (e : Event)
    (hopen : s.eventCh.closed = false)
    (hfull : s.eventCh.buf.length = s.eventCh.cap)
    (hq : s.eventCh.recvq = 0 ∨ (s.eventCh.wellFormed ∧ 0 < s.eventCh.cap))
    (hnew : s.events.lookup e.ID = none) :
    (s.Add (some e)).2 = .returned none ∧
      (s.Add (some e)).1.events.lookup e.ID = some e ∧
      (s.Add (some e)).1.eventCh = s.eventCh ∧
      (s.Add (some e)).1.eventCh.buf = s.eventCh.buf ∧
      (s.Add (some e)).1.eventCh.received = s.eventCh.received := by
  have hq0 : s.eventCh.recvq = 0 := by
    rcases hq with h | ⟨⟨_, hw⟩, hc⟩
    · exact h
    · by_contra hne
      have hb := (hw (Nat.pos_of_ne_zero hne)).1
      rw [hb] at hfull
      simp at hfull
      omega
  have hsend := Chan.trySend_of_full s.eventCh e hopen hfull hq0
  have hch : (s.Add (some e)).1.eventCh = s.eventCh := by
    simp [EventStore.Add, hnew, hsend]
  refine ⟨EventStore.Add_result_of_fresh_open s e hopen hnew, ?_, hch, ?_, ?_⟩
  · rw [EventStore.Add_events_of_fresh s e hnew, EventMap.lookup_set_self]
  · rw [hch]
  · rw [hch]

theorem Add_full_queue_drops_witness :
    (((NewEventStore 1).run [.add (some ⟨"e1", 5, "abc"⟩)]).Add (some ⟨"e2", 6, "x"⟩)).2 =
        .returned none ∧
      (((NewEventStore 1).run [.add (some ⟨"e1", 5, "abc"⟩)]).Add
        (some ⟨"e2", 6, "x"⟩)).1.events.lookup (Event.mk "e2" 6 "x").ID = some ⟨"e2", 6, "x"⟩ ∧
      (((NewEventStore 1).run [.add (some ⟨"e1", 5, "abc"⟩)]).Add
        (some ⟨"e2", 6, "x"⟩)).1.eventCh =
          ((NewEventStore 1).run [.add (some ⟨"e1", 5, "abc"⟩)]).eventCh ∧
      (((NewEventStore 1).run [.add (some ⟨"e1", 5, "abc"⟩)]).Add
        (some ⟨"e2", 6, "x"⟩)).1.eventCh.buf =
          ((NewEventStore 1).run [.add (some ⟨"e1", 5, "abc"⟩)]).eventCh.buf ∧
      (((NewEventStore 1).run [.add (some ⟨"e1", 5, "abc"⟩)]).Add
        (some ⟨"e2", 6, "x"⟩)).1.eventCh.received =
          ((NewEventStore 1).run [.add (some ⟨"e1", 5, "abc"⟩)]).eventCh.received :=
  Add_full_queue_drops ((NewEventStore 1).run [.add (some ⟨"e1", 5, "abc"⟩)])
    ⟨"e2", 6, "x"⟩ (by decide) (by decide) (Or.inl (by decide)) (by decide)

/-- C6. Take `N` events with pairwise distinct IDs and add them, in any order,
to a store fresh from `NewEventStore`.  Every `Add` returns nil, and every list
`GetAll` can return (any ordering of the map's entries) has exactly `N` events
and is, as an unordered collection, the list of added events: none missing,
none twice. -/
theorem GetAll_after_distinct_Adds (bufferSize : Nat) (es order : List Event)
    (hd : (es.map Event.ID).Nodup) (hp : order.Perm es) :
    ((NewEventStore bufferSize).runAdds (order.map some)).2 =
        List.replicate es.length (.returned none) ∧
      ∀ out : List Event,
        out.Perm ((NewEventStore bufferSize).runAdds (order.map some)).1.GetAll →
          out.length = es.length ∧ out.Perm es ∧ out.Nodup ∧ (out.map Event.ID).Nodup := by
  have hd' : (order.map Event.ID).Nodup := (hp.map Event.ID).nodup_iff.mpr hd
  obtain ⟨h1, h2⟩ := EventStore.runAdds_distinct order (NewEventStore bufferSize) rfl
    (fun _ _ => rfl) hd'
  have hall : ((NewEventStore bufferSize).runAdds (order.map some)).1.GetAll = order := by
    rw [EventStore.GetAll, h2]
    simp [NewEventStore, Function.comp_def]
  refine ⟨by rw [h1, hp.length_eq], ?_⟩
  intro out hout
  rw [hall] at hout
  have hout' : out.Perm es := hout.trans hp
  have hids : (out.map Event.ID).Nodup := (hout'.map Event.ID).nodup_iff.mpr hd
  exact ⟨hout'.length_eq, hout', List.Nodup.of_map Event.ID hids, hids⟩

theorem GetAll_after_distinct_Adds_witness :
    ((NewEventStore 10).runAdds
        ([(⟨"id2", 2, "payload2"⟩ : Event), ⟨"id1", 1, "payload1"⟩].map some)).2 =
        List.replicate [(⟨"id1", 1, "payload1"⟩ : Event), ⟨"id2", 2, "payload2"⟩].length
          (.returned none) ∧
      ∀ out : List Event,
        out.Perm ((NewEventStore 10).runAdds
          ([(⟨"id2", 2, "payload2"⟩ : Event), ⟨"id1", 1, "payload1"⟩].map some)).1.GetAll →
          out.length = [(⟨"id1", 1, "payload1"⟩ : Event), ⟨"id2", 2, "payload2"⟩].length ∧
          out.Perm [(⟨"id1", 1, "payload1"⟩ : Event), ⟨"id2", 2, "payload2"⟩] ∧
          out.Nodup ∧ (out.map Event.ID).Nodup :=
  GetAll_after_distinct_Adds 10 [⟨"id1", 1, "payload1"⟩, ⟨"id2", 2, "payload2"⟩]
    [⟨"id2", 2, "payload2"⟩, ⟨"id1", 1, "payload1"⟩] (by decide) (List.Perm.swap _ _ _)

/-- C7, the claim as stated fails on a closed store: after `Close`, `Add` of a
fresh event panics, so no `Add` with that ID has succeeded, yet the panicking
call has written the map and `Get` returns the event instead of
`ErrEventNotFound`. -/
theorem Get_after_failed_Add_counterexample :
    ((NewEventStore 1).run [.close]).Add (some ⟨"e1", 5, "abc"⟩) =
        (((NewEventStore 1).run [.close, .add (some ⟨"e1", 5, "abc"⟩)]), .panicked) ∧
      (NewEventStore 1).successfulAdds [.close, .add (some ⟨"e1", 5, "abc"⟩)] = [] ∧
      ((NewEventStore 1).run [.close, .add (some ⟨"e1", 5, "abc"⟩)]).Get "e1" =
        .ok ⟨"e1", 5, "abc"⟩ ∧
      ((NewEventStore 1).run [.close, .add (some ⟨"e1", 5, "abc"⟩)]).Get "e1" ≠
        .error .ErrEventNotFound := by
  refine ⟨by decide, by decide, rfl, fun h => ?_⟩
  have h' : (Except.ok ⟨"e1", 5, "abc"⟩ : Except Error Event) = .error .ErrEventNotFound := h
  cases h'

/-- C7, amended.  On a store made by `NewEventStore` and never closed, after any
sequence of `Add` calls and feed receives, `Get(id)` fails with
`ErrEventNotFound` if and only if no `Add` with that ID has returned nil;
otherwise it returns, with no error, the event stored under `id`, which is the
event of the first such `Add`. -/
theorem Get_NotFound_iff_no_successful_Add (bufferSize : Nat) (ops : List Op) (id : String)
    (hc : Op.close ∉ ops) :
    (((NewEventStore bufferSize).run ops).Get id = .error .ErrEventNotFound ↔
        ∀ e ∈ (NewEventStore bufferSize).successfulAdds ops, e.ID ≠ id) ∧
      ((∃ e ∈ (NewEventStore bufferSize).successfulAdds ops, e.ID = id) →
        ∃ ev, ((NewEventStore bufferSize).run ops).events.lookup id = some ev ∧
          ((NewEventStore bufferSize).run ops).Get id = .ok ev ∧
          ev.ID = id ∧
          ((NewEventStore bufferSize).successfulAdds ops).find?
            (fun e => decide (e.ID = id)) = some ev) := by
  have hl := EventStore.run_lookup_of_none ops (NewEventStore bufferSize) id rfl hc rfl
  constructor
  · unfold EventStore.Get
    rw [hl]
    cases hf : ((NewEventStore bufferSize).successfulAdds ops).find?
        (fun e => decide (e.ID = id)) with
    | none =>
      simp only [true_iff]
      intro e he
      have := List.find?_eq_none.mp hf e he
      simpa using this
    | some ev =>
      constructor
      · intro h
        cases h
      · intro hall
        have hmem := List.mem_of_find?_eq_some hf
        have hid := List.find?_some hf
        exact absurd (by simpa using hid) (hall ev hmem)
  · rintro ⟨e, he, hid⟩
    cases hf : ((NewEventStore bufferSize).successfulAdds ops).find?
        (fun e => decide (e.ID = id)) with
    | none =>
      have := List.find?_eq_none.mp hf e he
      simp [hid] at this
    | some ev =>
      have hid' := List.find?_some hf
      refine ⟨ev, by rw [hl, hf], ?_, by simpa using hid', rfl⟩
      unfold EventStore.Get
      rw [hl, hf]

theorem Get_NotFound_iff_no_successful_Add_witness :
    (((NewEventStore 1).run
          [.add (some ⟨"e1", 5, "abc"⟩), .receive, .add (some ⟨"e1", 6, "x"⟩)]).Get "e1" =
          .error .ErrEventNotFound ↔
        ∀ e ∈ (NewEventStore 1).successfulAdds
          [.add (some ⟨"e1", 5, "abc"⟩), .receive, .add (some ⟨"e1", 6, "x"⟩)], e.ID ≠ "e1") ∧
      ((∃ e ∈ (NewEventStore 1).successfulAdds
          [.add (some ⟨"e1", 5, "abc"⟩), .receive, .add (some ⟨"e1", 6, "x"⟩)], e.ID = "e1") →
        ∃ ev, ((NewEventStore 1).run
            [.add (some ⟨"e1", 5, "abc"⟩), .receive, .add (some ⟨"e1", 6, "x"⟩)]).events.lookup
              "e1" = some ev ∧
          ((NewEventStore 1).run
            [.add (some ⟨"e1", 5, "abc"⟩), .receive, .add (some ⟨"e1", 6, "x"⟩)]).Get "e1" =
              .ok ev ∧
          ev.ID = "e1" ∧
          ((NewEventStore 1).successfulAdds
            [.add (some ⟨"e1", 5, "abc"⟩), .receive, .add (some ⟨"e1", 6, "x"⟩)]).find?
            (fun e => decide (e.ID = "e1")) = some ev) :=
  Get_NotFound_iff_no_successful_Add 1
    [.add (some ⟨"e1", 5, "abc"⟩), .receive, .add (some ⟨"e1", 6, "x"⟩)] "e1" (by decide)

/-- C8. In any sequence of `Add` calls on a store fresh from `NewEventStore`
(nil arguments allowed), the call carrying event `e` returns nil exactly when no
earlier call of the sequence carried `e.ID`, and `ErrDuplicateEventID` otherwise;
so of two calls with one ID only the first succeeds.  At the end the map holds,
under that ID, the event of the first call that carried it. -/
theorem Add_sequence_first_wins (bufferSize : Nat) (pre post : List (Option Event))
    (e : Event) :
    ((NewEventStore bufferSize).runAdds (pre ++ some e :: post)).2[pre.length]? =
        some (if (firstWithID pre e.ID).isSome = true
          then .returned (some .ErrDuplicateEventID) else .returned none) ∧
      ((NewEventStore bufferSize).runAdds (pre ++ some e :: post)).1.events.lookup e.ID =
        firstWithID (pre ++ some e :: post) e.ID ∧
      (firstWithID (pre ++ some e :: post) e.ID =
        if (firstWithID pre e.ID).isSome = true then firstWithID pre e.ID else some e) := by
  have hpre := EventStore.runAdds_lookup_of_none pre (NewEventStore bufferSize) e.ID rfl
  have hopen : ((NewEventStore bufferSize).runAdds pre).1.eventCh.closed = false := by
    rw [EventStore.runAdds_closed]
    rfl
  refine ⟨?_, EventStore.runAdds_lookup_of_none _ _ _ rfl, ?_⟩
  · rw [EventStore.runAdds_append]
    simp only [EventStore.runAdds]
    rw [List.getElem?_append_right (by rw [EventStore.runAdds_length])]
    simp only [EventStore.runAdds_length, Nat.sub_self, List.getElem?_cons_zero]
    by_cases hp : (firstWithID pre e.ID).isSome = true
    · have hp' : (((NewEventStore bufferSize).runAdds pre).1.events.lookup e.ID).isSome
          = true := by rw [hpre]; exact hp
      rw [EventStore.Add_of_present _ e hp']
      simp [hp]
    · have hn : ((NewEventStore bufferSize).runAdds pre).1.events.lookup e.ID = none := by
        rw [hpre]
        simpa using hp
      rw [EventStore.Add_result_of_fresh_open _ e hopen hn]
      simp [hp]
  · simp only [firstWithID, List.reduceOption_append, List.reduceOption_cons_of_some,
      List.find?_append, List.find?_cons, decide_True]
    cases List.find? (fun x => decide (x.ID = e.ID)) pre.reduceOption <;> simp

/-- C9. For every worker and every event, the transformed event that
`processEvent` builds, and hands to `publishEvent`, has the ID and the timestamp
of the event, the clock reading as `ProcessedAt`, the upper-cased payload (so
`"abc"` gives `"ABC"`, whatever the case table says beyond ASCII) and the worker's
id as `ProcessorID`.  `NewWorker` never panics and gives the worker an id of 8
characters, so the `ProcessorID` of its events is non-empty.

The upper-casing is pinned down for every payload: the new payload has the
length of the old one and is its character-by-character image under
`unicode.ToUpper`.  On an ASCII character that is the upper-casing of basic Latin
letters: never a lower-case letter, a letter `a`..`z` moved 32 code points down
to `A`..`Z`, every other character kept.  Beyond ASCII it is the case table.  So
on an ASCII payload the result is the ASCII upper-casing of the payload and
holds no lower-case letter. -/
theorem processEvent_builds_transformed (caseTable : Char → Char) (w : Worker) (now : Int)
    (e : Event) :
    (w.processEvent caseTable now e).1.ID = e.ID ∧
      (w.processEvent caseTable now e).1.OriginalTime = e.Timestamp ∧
      (w.processEvent caseTable now e).1.Payload = ToUpper caseTable e.Payload ∧
      (w.processEvent caseTable now e).1.ProcessedAt = now ∧
      (w.processEvent caseTable now e).1.ProcessorID = w.id ∧
      (w.processEvent caseTable now e).2 =
        w.publishEvent (w.processEvent caseTable now e).1 ∧
      (w.processEvent caseTable now ⟨e.ID, e.Timestamp, "abc"⟩).1.Payload = "ABC" ∧
      (∀ u : UUID, ∃ w' : Worker, NewWorker u = some w' ∧ w'.id.length = 8 ∧ w'.id ≠ "" ∧
        (w'.processEvent caseTable now e).1.ProcessorID ≠ "") ∧
      (w.processEvent caseTable now e).1.Payload.length = e.Payload.length ∧
      (∀ i : Nat, (w.processEvent caseTable now e).1.Payload.data[i]? =
        e.Payload.data[i]?.map (unicodeToUpper caseTable)) ∧
      (∀ c : Char, c.toNat ≤ 0x7F →
        unicodeToUpper caseTable c = c.toUpper ∧
        (unicodeToUpper caseTable c).isLower = false ∧
        (c.isLower = false → unicodeToUpper caseTable c = c) ∧
        (c.isLower = true →
          (unicodeToUpper caseTable c).toNat + 32 = c.toNat ∧
          (unicodeToUpper caseTable c).isUpper = true)) ∧
      (∀ c : Char, 0x7F < c.toNat → unicodeToUpper caseTable c = caseTable c) ∧
      ((∀ c ∈ e.Payload.data, c.toNat ≤ 0x7F) →
        (w.processEvent caseTable now e).1.Payload = e.Payload.toUpper ∧
        ∀ c ∈ (w.processEvent caseTable now e).1.Payload.data, c.isLower = false) := by
  refine ⟨rfl, rfl, rfl, rfl, rfl, rfl, rfl, fun u => ?_, ToUpper_length caseTable e.Payload,
    fun i => ?_,
    fun c hc => ⟨unicodeToUpper_ascii caseTable c hc, unicodeToUpper_ascii_spec caseTable c hc⟩,
    fun c hc => unicodeToUpper_of_nonascii caseTable c hc, fun hascii => ?_⟩
  rotate_left
  · show (e.Payload.data.map (unicodeToUpper caseTable))[i]? = _
    rw [List.getElem?_map]
  · refine ⟨ToUpper_of_ascii caseTable e.Payload hascii, ?_⟩
    intro c hc
    have hc' : c ∈ e.Payload.data.map (unicodeToUpper caseTable) := hc
    obtain ⟨c0, hc0, rfl⟩ := List.mem_map.mp hc'
    exact (unicodeToUpper_ascii_spec caseTable c0 (hascii c0 hc0)).1
  have hlen : 8 ≤ u.String.length := by
    rw [UUID.String_length]
    omega
  have hlen' : 8 ≤ u.String.data.length := hlen
  have hid : (String.mk (u.String.data.take 8)).length = 8 := by
    show (u.String.data.take 8).length = 8
    rw [List.length_take]
    omega
  have hne : String.mk (u.String.data.take 8) ≠ "" := by
    intro h
    rw [h] at hid
    exact absurd hid (by decide)
  exact ⟨⟨String.mk (u.String.data.take 8)⟩, by simp [NewWorker, sliceTo, hlen], hid, hne, hne⟩

/-- C10. `ValidateEvent` returns `ErrMissingID` exactly when the ID is empty, and
then leaves the event as it was.  With a non-empty ID it returns nil, a zero
`Timestamp` becomes the current Unix time (non-zero whenever the clock is not at
the epoch second) and any other `Timestamp` stays; ID and Payload never change.
So an event posted to an open store under a fresh ID with its timestamp omitted
is answered 201 and stored with `Timestamp` equal to the clock reading. -/
theorem ValidateEvent_contract (now : Int) (e : Event) :
    ((ValidateEvent now e).2 = some .ErrMissingID ↔ e.ID = "") ∧
      (e.ID = "" → (ValidateEvent now e).1 = e) ∧
      (e.ID ≠ "" → (ValidateEvent now e).2 = none ∧
        (e.Timestamp = 0 → (ValidateEvent now e).1.Timestamp = now) ∧
        (e.Timestamp = 0 → now ≠ 0 → (ValidateEvent now e).1.Timestamp ≠ 0) ∧
        (e.Timestamp ≠ 0 → (ValidateEvent now e).1.Timestamp = e.Timestamp)) ∧
      (ValidateEvent now e).1.ID = e.ID ∧
      (ValidateEvent now e).1.Payload = e.Payload ∧
      (∀ s : EventStore, s.eventCh.closed = false → s.events.lookup e.ID = none →
        e.ID ≠ "" → e.Timestamp = 0 →
          (handlePostEvent s now (some e)).2 = some ⟨201, e.ID⟩ ∧
          (handlePostEvent s now (some e)).1.Get e.ID = .ok ⟨e.ID, now, e.Payload⟩) := by
  refine ⟨?_, ?_, ?_, ?_, ?_, ?_⟩
  · unfold ValidateEvent
    split_ifs with h1 h2 <;> simp [h1]
  · intro h
    simp [ValidateEvent, h]
  · intro h
    refine ⟨?_, ?_, ?_, ?_⟩
    · unfold ValidateEvent
      rw [if_neg h]
      split_ifs <;> rfl
    · intro h0
      simp [ValidateEvent, h, h0]
    · intro h0 hnow
      simp [ValidateEvent, h, h0, hnow]
    · intro h0
      simp [ValidateEvent, h, h0]
  · unfold ValidateEvent
    split_ifs <;> rfl
  · unfold ValidateEvent
    split_ifs <;> rfl
  · intro s hopen hnew hid h0
    have hv : ValidateEvent now e = (⟨e.ID, now, e.Payload⟩, none) := by
      simp [ValidateEvent, hid, h0]
    have hr := EventStore.Add_result_of_fresh_open s ⟨e.ID, now, e.Payload⟩ hopen hnew
    have hev := EventStore.Add_events_of_fresh s ⟨e.ID, now, e.Payload⟩ hnew
    have hpost : handlePostEvent s now (some e) =
        ((s.Add (some ⟨e.ID, now, e.Payload⟩)).1, some ⟨201, e.ID⟩) := by
      unfold handlePostEvent
      simp only [hv]
      generalize s.Add (some ⟨e.ID, now, e.Payload⟩) = r at hr
      obtain ⟨s1, res⟩ := r
      simp only at hr
      subst hr
      rfl
    rw [hpost]
    refine ⟨rfl, ?_⟩
    simp only [EventStore.Get, hev]
    rw [show e.ID = (Event.mk e.ID now e.Payload).ID from rfl, EventMap.lookup_set_self]

/-- C11. On an open store the POST handler answers 400 when the body does not
decode or the decoded ID is empty, 409 when the decoded ID is non-empty and
already a key, and 201 otherwise.  In the 400 and 409 cases the store is the
store before; in the 201 case exactly one entry, the validated event under the
decoded ID, is added to the map. -/
theorem handlePostEvent_statuses (s : EventStore) (now : Int) (decoded : Option Event)
    (hopen : s.eventCh.closed = false) :
    (decoded = none →
        handlePostEvent s now decoded = (s, some ⟨400, "Invalid request body"⟩)) ∧
      (∀ e, decoded = some e → e.ID = "" →
        handlePostEvent s now decoded = (s, some ⟨400, "missing event ID"⟩)) ∧
      (∀ e, decoded = some e → e.ID ≠ "" → (s.events.lookup e.ID).isSome = true →
        handlePostEvent s now decoded =
          (s, some ⟨409, "Event with this ID already exists"⟩)) ∧
      (∀ e, decoded = some e → e.ID ≠ "" → s.events.lookup e.ID = none →
        (handlePostEvent s now decoded).2 = some ⟨201, e.ID⟩ ∧
        (handlePostEvent s now decoded).1.events =
          s.events ++ [(e.ID, (ValidateEvent now e).1)] ∧
        (handlePostEvent s now decoded).1.GetAll.length = s.GetAll.length + 1) ∧
      ((handlePostEvent s now decoded).2.map Response.status ≠ some 201 →
        (handlePostEvent s now decoded).1 = s) := by
  have hbad : ∀ e, e.ID = "" →
      handlePostEvent s now (some e) = (s, some ⟨400, "missing event ID"⟩) := by
    intro e he
    simp [handlePostEvent, ValidateEvent, he, Error.Error]
  have hdup : ∀ e, e.ID ≠ "" → (s.events.lookup e.ID).isSome = true →
      handlePostEvent s now (some e) =
        (s, some ⟨409, "Event with this ID already exists"⟩) := by
    intro e hid hp
    rw [handlePostEvent_of_valid s now e hid,
      EventStore.Add_of_present s _ (by rw [ValidateEvent_ID]; exact hp)]
    simp
  have hnew : ∀ e, e.ID ≠ "" → s.events.lookup e.ID = none →
      handlePostEvent s now (some e) =
        ((s.Add (some (ValidateEvent now e).1)).1, some ⟨201, e.ID⟩) := by
    intro e hid hn
    have hn' : s.events.lookup (ValidateEvent now e).1.ID = none := by
      rw [ValidateEvent_ID]
      exact hn
    have hr := EventStore.Add_result_of_fresh_open s _ hopen hn'
    rw [handlePostEvent_of_valid s now e hid]
    generalize s.Add (some (ValidateEvent now e).1) = r at hr
    obtain ⟨s1, res⟩ := r
    simp only at hr
    subst hr
    rfl
  refine ⟨?_, ?_, ?_, ?_, ?_⟩
  · intro h
    subst h
    rfl
  · intro e h he
    subst h
    exact hbad e he
  · intro e h hid hp
    subst h
    exact hdup e hid hp
  · intro e h hid hn
    subst h
    have hn' : s.events.lookup (ValidateEvent now e).1.ID = none := by
      rw [ValidateEvent_ID]
      exact hn
    have hev := EventStore.Add_events_of_fresh s _ hn'
    rw [EventMap.set_fresh _ _ _ hn', ValidateEvent_ID] at hev
    rw [hnew e hid hn]
    refine ⟨rfl, hev, ?_⟩
    simp [EventStore.GetAll, hev]
  · intro hne
    cases decoded with
    | none => rfl
    | some e =>
      by_cases hid : e.ID = ""
      · rw [hbad e hid]
      · by_cases hp : (s.events.lookup e.ID).isSome = true
        · rw [hdup e hid hp]
        · have hn : s.events.lookup e.ID = none := by simpa using hp
          rw [hnew e hid hn] at hne
          simp at hne

theorem handlePostEvent_statuses_witness :
    ((some ⟨"e1", 0, "hello"⟩ : Option Event) = none →
        handlePostEvent (NewEventStore 10) 1700000000 (some ⟨"e1", 0, "hello"⟩) =
          (NewEventStore 10, some ⟨400, "Invalid request body"⟩)) ∧
      (∀ e, (some ⟨"e1", 0, "hello"⟩ : Option Event) = some e → e.ID = "" →
        handlePostEvent (NewEventStore 10) 1700000000 (some ⟨"e1", 0, "hello"⟩) =
          (NewEventStore 10, some ⟨400, "missing event ID"⟩)) ∧
      (∀ e, (some ⟨"e1", 0, "hello"⟩ : Option Event) = some e → e.ID ≠ "" →
        ((NewEventStore 10).events.lookup e.ID).isSome = true →
        handlePostEvent (NewEventStore 10) 1700000000 (some ⟨"e1", 0, "hello"⟩) =
          (NewEventStore 10, some ⟨409, "Event with this ID already exists"⟩)) ∧
      (∀ e, (some ⟨"e1", 0, "hello"⟩ : Option Event) = some e → e.ID ≠ "" →
        (NewEventStore 10).events.lookup e.ID = none →
        (handlePostEvent (NewEventStore 10) 1700000000 (some ⟨"e1", 0, "hello"⟩)).2 =
          some ⟨201, e.ID⟩ ∧
        (handlePostEvent (NewEventStore 10) 1700000000 (some ⟨"e1", 0, "hello"⟩)).1.events =
          (NewEventStore 10).events ++ [(e.ID, (ValidateEvent 1700000000 e).1)] ∧
        (handlePostEvent (NewEventStore 10) 1700000000
          (some ⟨"e1", 0, "hello"⟩)).1.GetAll.length = (NewEventStore 10).GetAll.length + 1) ∧
      ((handlePostEvent (NewEventStore 10) 1700000000
          (some ⟨"e1", 0, "hello"⟩)).2.map Response.status ≠ some 201 →
        (handlePostEvent (NewEventStore 10) 1700000000 (some ⟨"e1", 0, "hello"⟩)).1 =
          NewEventStore 10) :=
  handlePostEvent_statuses (NewEventStore 10) 1700000000 (some ⟨"e1", 0, "hello"⟩) rfl

/-- C12. After any sequence of calls on a store fresh from `NewEventStore`
(`Add` calls, feed receives, consumers giving up, even `Close`), the events the
feed has delivered are a subsequence, in the same relative order, of the events
whose `Add` returned nil, and so are the delivered events followed by the ones
still buffered.  No event is delivered twice, and none without a successful
`Add`; events may be missing. -/
theorem feed_is_subsequence_of_successful_Adds (bufferSize : Nat) (ops : List Op) :
    ((NewEventStore bufferSize).run ops).eventCh.received.Sublist
        ((NewEventStore bufferSize).successfulAdds ops) ∧
      (((NewEventStore bufferSize).run ops).eventCh.received ++
          ((NewEventStore bufferSize).run ops).eventCh.buf).Sublist
        ((NewEventStore bufferSize).successfulAdds ops) ∧
      (((NewEventStore bufferSize).run ops).eventCh.received.map Event.ID).Nodup ∧
      ((NewEventStore bufferSize).run ops).eventCh.received.Nodup ∧
      (∀ e ∈ ((NewEventStore bufferSize).run ops).eventCh.received,
        e ∈ (NewEventStore bufferSize).successfulAdds ops) := by
  have hw : (NewEventStore bufferSize).eventCh.wellFormed :=
    ⟨Nat.zero_le _, fun h => absurd h (Nat.lt_irrefl 0)⟩
  have hall := EventStore.run_feed_sublist ops (NewEventStore bufferSize) [] hw
    (List.Sublist.refl _)
  rw [List.nil_append] at hall
  have hrec := (List.sublist_append_left _ _).trans hall
  have hids := ((EventStore.successfulAdds_fresh ops (NewEventStore bufferSize)).2).sublist
    (hrec.map Event.ID)
  exact ⟨hrec, hall, hids, List.Nodup.of_map Event.ID hids, fun e he => hrec.subset he⟩

/-- C13. A worker's `Start` loop always comes to an end once `Close` has been
called on the store, whatever other goroutines do to the store in between.

First, `Start` against a store that is already closed with `n` events buffered
returns within `n + 1` turns of its loop.  The events it handles are a
subsequence of the buffered ones, in queue order, so at most `n`; absent
cancellation it returns through the closed signal; if moreover no other consumer
takes events, it handles exactly the `n` buffered events and leaves the buffer
empty.

Second, the same for a worker started earlier, on any store: take it after any
run `pre` that leaves it in its loop, about to run the `select` or blocked in
it, and let the store be closed, with `n` events buffered, once the calls of the
next turn are made.  Then it returns within `n + 1` turns (one more if a sender
woke it before the `Close`), through the closed signal absent cancellation, and
after `pre` it handles only a subsequence of those `n` events, preceded, for a
blocked worker, by the one event a sender may have handed it.  It is never left
blocked or looping.

Third, what it publishes is the transform of what it handled, in order. -/
theorem Start_terminates_on_closed_feed (caseTable : Char → Char) (w : Worker)
    (s : EventStore) :
    (∀ sched : List Tick, s.eventCh.closed = true → s.eventCh.buf.length < sched.length →
      ((w.Start caseTable s sched).exit = .feedClosed ∨
        (w.Start caseTable s sched).exit = .cancelled) ∧
      (w.Start caseTable s sched).handled.Sublist s.eventCh.buf ∧
      (w.Start caseTable s sched).handled.length ≤ s.eventCh.buf.length ∧
      ((∀ t ∈ sched, t.ctxDone = false) →
        (w.Start caseTable s sched).exit = .feedClosed) ∧
      ((∀ t ∈ sched, t.ctxDone = false ∧ t.others = []) →
        (w.Start caseTable s sched).handled = s.eventCh.buf ∧
        (w.Start caseTable s sched).store.eventCh.buf = [])) ∧
    (∀ (pre : List Tick) (t : Tick) (rest : List Tick),
      ((w.Start caseTable s pre).exit = .running ∨
        (w.Start caseTable s pre).exit = .parked) →
      ((w.Start caseTable s pre).store.run t.others).eventCh.closed = true →
      ((w.Start caseTable s pre).store.run t.others).eventCh.buf.length +
        (if (w.Start caseTable s pre).exit = .parked then 1 else 0) ≤ rest.length →
      ((w.Start caseTable s (pre ++ t :: rest)).exit = .feedClosed ∨
        (w.Start caseTable s (pre ++ t :: rest)).exit = .cancelled) ∧
      ((∀ t' ∈ t :: rest, t'.ctxDone = false) →
        (w.Start caseTable s (pre ++ t :: rest)).exit = .feedClosed) ∧
      ∃ h : List Event,
        h.Sublist ((w.Start caseTable s pre).store.run t.others).eventCh.buf ∧
        ((w.Start caseTable s (pre ++ t :: rest)).handled =
            (w.Start caseTable s pre).handled ++ h ∨
          ((w.Start caseTable s pre).exit = .parked ∧
            ∃ e, (w.Start caseTable s pre).store.wakes t.others t.handed = some e ∧
              e ∈ (w.Start caseTable s pre).store.handoffs t.others ∧
              (w.Start caseTable s (pre ++ t :: rest)).handled =
                (w.Start caseTable s pre).handled ++ e :: h)) ∧
        ((w.Start caseTable s pre).exit = .running →
          (∀ t' ∈ t :: rest, t'.ctxDone = false) → (∀ t' ∈ rest, t'.others = []) →
          h = ((w.Start caseTable s pre).store.run t.others).eventCh.buf ∧
          (w.Start caseTable s (pre ++ t :: rest)).store.eventCh.buf = [])) ∧
    (∀ sched : List Tick,
      (w.Start caseTable s sched).published.map TransformedEvent.ID =
        (w.Start caseTable s sched).handled.map Event.ID ∧
      (w.Start caseTable s sched).published.map TransformedEvent.Payload =
        (w.Start caseTable s sched).handled.map (fun e => ToUpper caseTable e.Payload) ∧
      ∀ p ∈ (w.Start caseTable s sched).published, p.ProcessorID = w.id) := by
  refine ⟨?_, ?_, ?_⟩
  · intro sched hclosed hfuel
    obtain ⟨h, hsub, hhand, hexit, hnc, hund⟩ := Worker.loop_of_closed caseTable w sched
      { exit := .running, store := s, handled := [], published := [],
        log := ["Starting worker " ++ w.id] } (Or.inl rfl) hclosed hfuel
    have hh : (w.Start caseTable s sched).handled = h := by
      rw [Worker.Start, hhand]
      rfl
    refine ⟨hexit, hh ▸ hsub, hh ▸ hsub.length_le, hnc, ?_⟩
    intro hall
    obtain ⟨h1, h2⟩ := hund rfl hall
    exact ⟨hh.trans h1, h2⟩
  · intro pre t rest halive hclosed hfuel
    have happ : w.Start caseTable s (pre ++ t :: rest) =
        w.loop caseTable (w.Start caseTable s pre) (t :: rest) := by
      simp only [Worker.Start, Worker.loop_append]
    obtain ⟨h, hsub, hhand, hexit, hnc, hund⟩ := Worker.loop_closing caseTable w
      (w.Start caseTable s pre) t rest halive hclosed hfuel
    rw [happ]
    exact ⟨hexit, hnc, h, hsub, hhand, hund⟩
  · intro sched
    exact Worker.loop_published caseTable w sched _
      ⟨rfl, rfl, fun p hp => absurd hp (List.not_mem_nil p)⟩

theorem Start_terminates_on_closed_feed_witness :
    ((Worker.Start id ⟨"w1"⟩ (NewEventStore 2)
        [⟨[], false, false, 9, none⟩,
          ⟨[.add (some ⟨"e1", 1, "abc"⟩)], false, false, 9, none⟩]).exit =
        .running) ∧
      (Worker.Start id ⟨"w1"⟩ (NewEventStore 2)
        ([⟨[], false, false, 9, none⟩,
            ⟨[.add (some ⟨"e1", 1, "abc"⟩)], false, false, 9, none⟩] ++
          ⟨[.close], false, false, 9, none⟩ :: [])).exit = .feedClosed ∧
      (Worker.Start id ⟨"w1"⟩ (NewEventStore 2)
        ([⟨[], false, false, 9, none⟩,
            ⟨[.add (some ⟨"e1", 1, "abc"⟩)], false, false, 9, none⟩] ++
          ⟨[.close], false, false, 9, none⟩ :: [])).handled = [⟨"e1", 1, "abc"⟩] ∧
      (Worker.Start id ⟨"w1"⟩ (NewEventStore 2)
        ([⟨[], false, false, 9, none⟩,
            ⟨[.add (some ⟨"e1", 1, "abc"⟩)], false, false, 9, none⟩] ++
          ⟨[.close], false, false, 9, none⟩ :: [])).published.map TransformedEvent.Payload =
        ["ABC"] :=
  ⟨by decide,
    ((Start_terminates_on_closed_feed id ⟨"w1"⟩ (NewEventStore 2)).2.1
      [⟨[], false, false, 9, none⟩,
        ⟨[.add (some ⟨"e1", 1, "abc"⟩)], false, false, 9, none⟩]
      ⟨[.close], false, false, 9, none⟩ [] (Or.inl (by decide)) (by decide) (by decide)).2.1
      (by decide),
    by decide, by decide⟩

/-- C14. On a closed store, `Add` of a non-nil event whose ID is not a key does
not return: it panics in the send.  The map write has already happened, so the
store the panic leaves behind holds the event, and `Get` of its ID, which failed
before the call, returns it.  The channel is untouched. -/
theorem Add_on_closed_store_panics (s : EventStore) (e : Event)
    (hclosed : s.eventCh.closed = true) (hnew : s.events.lookup e.ID = none) :
    (s.Add (some e)).2 = .panicked ∧
      s.Get e.ID = .error .ErrEventNotFound ∧
      (s.Add (some e)).1.events.lookup e.ID = some e ∧
      (s.Add (some e)).1.Get e.ID = .ok e ∧
      (s.Add (some e)).1.GetAll.length = s.GetAll.length + 1 ∧
      (s.Add (some e)).1.eventCh = s.eventCh := by
  rw [EventStore.Add_result_of_fresh_closed s e hclosed hnew]
  refine ⟨rfl, by simp [EventStore.Get, hnew], EventMap.lookup_set_self _ _ _, ?_, ?_, rfl⟩
  · simp [EventStore.Get, EventMap.lookup_set_self]
  · simp [EventStore.GetAll, EventMap.set_fresh _ _ _ hnew]

theorem Add_on_closed_store_panics_witness :
    (((NewEventStore 10).run [.close]).Add (some ⟨"e1", 5, "abc"⟩)).2 = .panicked ∧
      ((NewEventStore 10).run [.close]).Get (Event.mk "e1" 5 "abc").ID =
        .error .ErrEventNotFound ∧
      (((NewEventStore 10).run [.close]).Add (some ⟨"e1", 5, "abc"⟩)).1.events.lookup
        (Event.mk "e1" 5 "abc").ID = some ⟨"e1", 5, "abc"⟩ ∧
      (((NewEventStore 10).run [.close]).Add (some ⟨"e1", 5, "abc"⟩)).1.Get
        (Event.mk "e1" 5 "abc").ID = .ok ⟨"e1", 5, "abc"⟩ ∧
      (((NewEventStore 10).run [.close]).Add (some ⟨"e1", 5, "abc"⟩)).1.GetAll.length =
        ((NewEventStore 10).run [.close]).GetAll.length + 1 ∧
      (((NewEventStore 10).run [.close]).Add (some ⟨"e1", 5, "abc"⟩)).1.eventCh =
        ((NewEventStore 10).run [.close]).eventCh :=
  Add_on_closed_store_panics ((NewEventStore 10).run [.close]) ⟨"e1", 5, "abc"⟩
    (by decide) (by decide)

/-- C15. The POST handler never answers 500, on any store and for any body: the
event it hands to `Add` is never nil, and the only error `Add` returns for a
non-nil event is `ErrDuplicateEventID`, which is answered 409.  On an open store
it always answers, with 400, 409 or 201. -/
theorem handlePostEvent_never_500 (s : EventStore) (now : Int) (decoded : Option Event) :
    (∀ resp, (handlePostEvent s now decoded).2 = some resp → resp.status ≠ 500) ∧
      (∀ e err, (s.Add (some e)).2 = .returned (some err) → err = .ErrDuplicateEventID) ∧
      (s.eventCh.closed = false →
        ∃ resp, (handlePostEvent s now decoded).2 = some resp ∧
          (resp.status = 400 ∨ resp.status = 409 ∨ resp.status = 201)) := by
  refine ⟨?_, fun e err h => EventStore.Add_some_error s e err h, ?_⟩
  · intro resp h
    cases decoded with
    | none =>
      simp only [handlePostEvent, Option.some.injEq] at h
      subst h
      decide
    | some e =>
      by_cases hid : e.ID = ""
      · simp only [handlePostEvent, ValidateEvent, hid, if_true, Option.some.injEq] at h
        subst h
        decide
      · rw [handlePostEvent_of_valid s now e hid] at h
        have herr := EventStore.Add_some_error s (ValidateEvent now e).1
        generalize s.Add (some (ValidateEvent now e).1) = r at h herr
        obtain ⟨s1, res⟩ := r
        cases res with
        | returned err =>
          cases err with
          | none =>
            simp only [Option.some.injEq] at h
            subst h
            show (201 : Nat) ≠ 500
            decide
          | some err =>
            have := herr err rfl
            subst this
            simp only [if_true, Option.some.injEq] at h
            subst h
            decide
        | panicked => simp at h
  · intro hopen
    cases decoded with
    | none => exact ⟨_, rfl, Or.inl rfl⟩
    | some e =>
      by_cases hid : e.ID = ""
      · refine ⟨⟨400, "missing event ID"⟩, ?_, Or.inl rfl⟩
        simp [handlePostEvent, ValidateEvent, hid, Error.Error]
      · rw [handlePostEvent_of_valid s now e hid]
        by_cases hp : (s.events.lookup (ValidateEvent now e).1.ID).isSome = true
        · rw [EventStore.Add_of_present s _ hp]
          exact ⟨_, rfl, Or.inr (Or.inl rfl)⟩
        · have hn : s.events.lookup (ValidateEvent now e).1.ID = none := by simpa using hp
          have hr := EventStore.Add_result_of_fresh_open s _ hopen hn
          generalize s.Add (some (ValidateEvent now e).1) = r at hr
          obtain ⟨s1, res⟩ := r
          simp only at hr
          subst hr
          exact ⟨_, rfl, Or.inr (Or.inr rfl)⟩

end EventProcessor
